import Mathlib

set_option maxRecDepth 8000
set_option maxHeartbeats 1600000

/-!
Shallow embedding of the vandyvision repository (rating-based image selection,
metadata condensation/augmentation, CSV catalog writing).

Conventions of the embedding:
* Python runtime values flowing through the pipeline are modelled by the
  inductive type `Value` (`None`, `str`, `int`, `bool`, `float` as exact
  rationals, `list`/`tuple`, `dict`).  Python dicts are ordered association
  lists (insertion order), as in CPython.
* Fallible code (Python exceptions) is modelled with `Except String`.
* The external ExifTool process and the filesystem are opaque collaborators:
  they enter the model as explicit parameters (a directory listing, a
  per-file star oracle, an optional file size).
* Machine floats appear only in the rounded file-size field; they are
  modelled as exact rationals (`ℚ`), which no claim depends on.
-/

/-- Python values as they flow through the metadata pipeline.  `rat` stands
for Python floats (modelled as exact rationals); `list` covers both Python
lists and tuples, which all the code under `src/` treats identically. -/
inductive Value where
  | none
  | str (s : String)
  | int (n : Int)
  | bool (b : Bool)
  | rat (q : ℚ)
  | list (items : List Value)
  | dict (fields : List (String × Value))

mutual

/-- Decidable equality on `Value` (the automatic derivation does not handle
the nested occurrences in `list`/`dict`). -/
def Value.decEq : (a b : Value) → Decidable (a = b)
  | .none, .none => isTrue rfl
  | .str s1, .str s2 =>
      if h : s1 = s2 then isTrue (by rw [h])
      else isFalse (fun he => h (by injection he))
  | .int n1, .int n2 =>
      if h : n1 = n2 then isTrue (by rw [h])
      else isFalse (fun he => h (by injection he))
  | .bool b1, .bool b2 =>
      if h : b1 = b2 then isTrue (by rw [h])
      else isFalse (fun he => h (by injection he))
  | .rat q1, .rat q2 =>
      if h : q1 = q2 then isTrue (by rw [h])
      else isFalse (fun he => h (by injection he))
  | .list l1, .list l2 =>
      match Value.decEqList l1 l2 with
      | isTrue h => isTrue (by rw [h])
      | isFalse h => isFalse (fun he => h (by injection he))
  | .dict d1, .dict d2 =>
      match Value.decEqDict d1 d2 with
      | isTrue h => isTrue (by rw [h])
      | isFalse h => isFalse (fun he => h (by injection he))
  | .none, .str _ => isFalse (fun h => nomatch h)
  | .none, .int _ => isFalse (fun h => nomatch h)
  | .none, .bool _ => isFalse (fun h => nomatch h)
  | .none, .rat _ => isFalse (fun h => nomatch h)
  | .none, .list _ => isFalse (fun h => nomatch h)
  | .none, .dict _ => isFalse (fun h => nomatch h)
  | .str _, .none => isFalse (fun h => nomatch h)
  | .str _, .int _ => isFalse (fun h => nomatch h)
  | .str _, .bool _ => isFalse (fun h => nomatch h)
  | .str _, .rat _ => isFalse (fun h => nomatch h)
  | .str _, .list _ => isFalse (fun h => nomatch h)
  | .str _, .dict _ => isFalse (fun h => nomatch h)
  | .int _, .none => isFalse (fun h => nomatch h)
  | .int _, .str _ => isFalse (fun h => nomatch h)
  | .int _, .bool _ => isFalse (fun h => nomatch h)
  | .int _, .rat _ => isFalse (fun h => nomatch h)
  | .int _, .list _ => isFalse (fun h => nomatch h)
  | .int _, .dict _ => isFalse (fun h => nomatch h)
  | .bool _, .none => isFalse (fun h => nomatch h)
  | .bool _, .str _ => isFalse (fun h => nomatch h)
  | .bool _, .int _ => isFalse (fun h => nomatch h)
  | .bool _, .rat _ => isFalse (fun h => nomatch h)
  | .bool _, .list _ => isFalse (fun h => nomatch h)
  | .bool _, .dict _ => isFalse (fun h => nomatch h)
  | .rat _, .none => isFalse (fun h => nomatch h)
  | .rat _, .str _ => isFalse (fun h => nomatch h)
  | .rat _, .int _ => isFalse (fun h => nomatch h)
  | .rat _, .bool _ => isFalse (fun h => nomatch h)
  | .rat _, .list _ => isFalse (fun h => nomatch h)
  | .rat _, .dict _ => isFalse (fun h => nomatch h)
  | .list _, .none => isFalse (fun h => nomatch h)
  | .list _, .str _ => isFalse (fun h => nomatch h)
  | .list _, .int _ => isFalse (fun h => nomatch h)
  | .list _, .bool _ => isFalse (fun h => nomatch h)
  | .list _, .rat _ => isFalse (fun h => nomatch h)
  | .list _, .dict _ => isFalse (fun h => nomatch h)
  | .dict _, .none => isFalse (fun h => nomatch h)
  | .dict _, .str _ => isFalse (fun h => nomatch h)
  | .dict _, .int _ => isFalse (fun h => nomatch h)
  | .dict _, .bool _ => isFalse (fun h => nomatch h)
  | .dict _, .rat _ => isFalse (fun h => nomatch h)
  | .dict _, .list _ => isFalse (fun h => nomatch h)

/-- Decidable equality on lists of `Value`. -/
def Value.decEqList : (a b : List Value) → Decidable (a = b)
  | [], [] => isTrue rfl
  | [], _ :: _ => isFalse (fun h => nomatch h)
  | _ :: _, [] => isFalse (fun h => nomatch h)
  | a :: as, b :: bs =>
      match Value.decEq a b with
      | isFalse h1 => isFalse (fun he => by injection he with hh _; exact h1 hh)
      | isTrue h1 =>
        match Value.decEqList as bs with
        | isTrue h2 => isTrue (by rw [h1, h2])
        | isFalse h2 => isFalse (fun he => by injection he with _ ht; exact h2 ht)

/-- Decidable equality on dict entry lists. -/
def Value.decEqDict : (a b : List (String × Value)) → Decidable (a = b)
  | [], [] => isTrue rfl
  | [], _ :: _ => isFalse (fun h => nomatch h)
  | _ :: _, [] => isFalse (fun h => nomatch h)
  | (k1, v1) :: as, (k2, v2) :: bs =>
      if hk : k1 = k2 then
        match Value.decEq v1 v2 with
        | isFalse h1 =>
            isFalse (fun he => by
              injection he with hh _
              exact h1 (congrArg Prod.snd hh))
        | isTrue h1 =>
          match Value.decEqDict as bs with
          | isTrue h2 => isTrue (by rw [hk, h1, h2])
          | isFalse h2 => isFalse (fun he => by injection he with _ ht; exact h2 ht)
      else
        isFalse (fun he => by
          injection he with hh _
          exact hk (congrArg Prod.fst hh))

end

instance : DecidableEq Value := Value.decEq

/-- Decidable equality on `Except` results (used to evaluate the embedded
fallible functions on concrete inputs). -/
def exceptDecEq {ε α : Type} [DecidableEq ε] [DecidableEq α] :
    (a b : Except ε α) → Decidable (a = b)
  | .error e1, .error e2 =>
      if h : e1 = e2 then isTrue (by rw [h])
      else isFalse (fun he => h (by injection he))
  | .ok a1, .ok a2 =>
      if h : a1 = a2 then isTrue (by rw [h])
      else isFalse (fun he => h (by injection he))
  | .error _, .ok _ => isFalse (fun h => nomatch h)
  | .ok _, .error _ => isFalse (fun h => nomatch h)

instance {ε α : Type} [DecidableEq ε] [DecidableEq α] : DecidableEq (Except ε α) :=
  exceptDecEq

/-- Python `d.get(k)` on an ordered dict modelled as an association list
(first binding wins; dicts built by the embedded code have unique keys). -/
def dictGet (d : List (String × Value)) (k : String) : Option Value :=
  (d.find? (fun p => p.1 = k)).map (fun p => p.2)

/-- Python `d[k] = v`: update the existing binding in place, else append. -/
def dictSet : List (String × Value) → String → Value → List (String × Value)
  | [], k, v => [(k, v)]
  | (k1, v1) :: rest, k, v =>
      if k1 = k then (k, v) :: rest else (k1, v1) :: dictSet rest k v

/-- Python `list(d.keys())` for an ordered dict. -/
def dictKeys (d : List (String × Value)) : List String := d.map (fun p => p.1)

/-- Python `isinstance(x, (str, int, float, bool, type(None)))`. -/
def isScalar : Value → Bool
  | .none => true
  | .str _ => true
  | .int _ => true
  | .bool _ => true
  | .rat _ => true
  | .list _ => false
  | .dict _ => false

/-- Lower-case hex digit. -/
def hexDigit (n : Nat) : Char :=
  if n < 10 then Char.ofNat (48 + n) else Char.ofNat (87 + n)

/-- Escaping of one character inside a JSON string literal, as done by
Python's `json.dumps` (with `ensure_ascii=False`, so non-ASCII is kept). -/
def jsonEscapeChar (c : Char) : String :=
  if c = '"' then "\\\""
  else if c = '\\' then "\\\\"
  else if c = '\n' then "\\n"
  else if c = '\t' then "\\t"
  else if c = '\r' then "\\r"
  else if c = '\x08' then "\\b"
  else if c = '\x0c' then "\\f"
  else if c.toNat < 32 then
    "\\u00" ++ String.mk [hexDigit (c.toNat / 16), hexDigit (c.toNat % 16)]
  else String.singleton c

/-- JSON string literal for `s`. -/
def jsonQuote (s : String) : String :=
  "\"" ++ String.join (s.toList.map jsonEscapeChar) ++ "\""

mutual

/-- Python `json.dumps(value, ensure_ascii=False)` with the default
separators `", "` and `": "`.  (On the `rat` constructor, which stands for
floats, the decimal float formatting is not modelled; no claim depends on
it.) -/
def jsonDumps : Value → String
  | .none => "null"
  | .str s => jsonQuote s
  | .int n => toString n
  | .bool b => if b then "true" else "false"
  | .rat q => toString q
  | .list items => "[" ++ jsonDumpsList items ++ "]"
  | .dict fields => "\x7b" ++ jsonDumpsDict fields ++ "\x7d"

/-- Comma-separated JSON serialization of the elements of a list. -/
def jsonDumpsList : List Value → String
  | [] => ""
  | [v] => jsonDumps v
  | v :: rest => jsonDumps v ++ ", " ++ jsonDumpsList rest

/-- Comma-separated JSON serialization of the entries of a dict. -/
def jsonDumpsDict : List (String × Value) → String
  | [] => ""
  | [(k, v)] => jsonQuote k ++ ": " ++ jsonDumps v
  | (k, v) :: rest => jsonQuote k ++ ": " ++ jsonDumps v ++ ", " ++ jsonDumpsDict rest

end

/-- Python `str(value)`.  The `list`/`dict` cases are never reached by the
embedded code (`_normalize_cell` routes them to `jsonDumps` first) and are
mapped to `jsonDumps` here only to keep the function total. -/
def pyStr : Value → String
  | .none => "None"
  | .str s => s
  | .int n => toString n
  | .bool b => if b then "True" else "False"
  | .rat q => toString q
  | .list items => jsonDumps (.list items)
  | .dict fields => jsonDumps (.dict fields)

/-- Embedding of `write_metadata._normalize_cell`: convert an arbitrary
value into a CSV-friendly string (`None` → `""`; lists/tuples of scalars →
`"; "`-joined; other lists and dicts → JSON; everything else → `str`). -/
def _normalize_cell (value : Value) : String :=
  match value with
  | .none => ""
  | .list items =>
      if items.all isScalar then
        String.intercalate "; " (items.map (fun x => if x = Value.none then "" else pyStr x))
      else jsonDumps (.list items)
  | .dict fields => jsonDumps (.dict fields)
  | v => pyStr v

/-- The inner loop of `write_metadata._compute_headers` (and of the inline
header-inference fallback in `append_records_to_csv`): append each key that
is not yet a header.  The Python code keeps a `seen` set alongside the
`headers` list purely as an O(1) mirror of `k in headers`; the list is the
semantic state. -/
def addKeys : List String → List String → List String
  | hs, [] => hs
  | hs, k :: ks => addKeys (if k ∈ hs then hs else hs ++ [k]) ks

/-- Embedding of `write_metadata._compute_headers`: existing headers in
their original order, then (only if `add_missing_columns`) keys newly seen
in the records, in first-seen order. -/
def _compute_headers (existing_headers : List String)
    (new_records : List (List (String × Value)))
    (add_missing_columns : Bool) : List String :=
  if add_missing_columns then
    new_records.foldl (fun hs rec => addKeys hs (rec.map Prod.fst)) existing_headers
  else existing_headers

/-- The `if not headers` fallback of `append_records_to_csv`: infer headers
from the records' keys in first-seen order (same loop as `_compute_headers`
starting from no headers). -/
def inferHeaders (records : List (List (String × Value))) : List String :=
  records.foldl (fun hs rec => addKeys hs (rec.map Prod.fst)) []

/-- String-valued row dict (one CSV row keyed by column name). -/
def strDictSet : List (String × String) → String → String → List (String × String)
  | [], k, v => [(k, v)]
  | (k1, v1) :: rest, k, v =>
      if k1 = k then (k, v) :: rest else (k1, v1) :: strDictSet rest k v

/-- Python `row.get(k, dflt)` on a string row dict. -/
def strDictGetD (d : List (String × String)) (k : String) (dflt : String) : String :=
  match d.find? (fun p => p.1 = k) with
  | some p => p.2
  | Option.none => dflt

/-- Python `{h: "" for h in headers}`. -/
def initRow (headers : List String) : List (String × String) :=
  headers.foldl (fun d h => strDictSet d h "") []

/-- Python `{h: row.get(h, "") for h in headers}` (the padding step of
`append_records_to_csv`). -/
def padRow (headers : List String) (row : List (String × String)) : List (String × String) :=
  headers.foldl (fun d h => strDictSet d h (strDictGetD row h "")) []

/-- One emitted CSV line: `csv.DictWriter` writes `row.get(h, restval)`
(default `restval=""`) for each field name, ignoring extra keys. -/
def rowToCells (headers : List String) (row : List (String × String)) : List String :=
  headers.map (fun h => strDictGetD row h "")

/-- The written CSV file: a header row followed by data rows, each row one
cell per header. -/
structure CsvFile where
  headers : List String
  rows : List (List String)
deriving DecidableEq

/-- Body of the per-record row-building loop of `append_records_to_csv`:
for each key of the record, set the cell if the key is a header; otherwise
append the key as a new header (only when `add_missing_columns`) or skip
it. -/
def buildRowStep (add_missing_columns : Bool)
    (st : List String × List (String × String)) (kv : String × Value) :
    List String × List (String × String) :=
  if kv.1 ∈ st.1 then (st.1, strDictSet st.2 kv.1 (_normalize_cell kv.2))
  else if add_missing_columns then
    (st.1 ++ [kv.1], strDictSet st.2 kv.1 (_normalize_cell kv.2))
  else st

/-- Embedding of `write_metadata.append_records_to_csv` as a pure function.
The input CSV's contents (`existing_headers`, `existing_rows`) stand for
`_read_existing_csv` (a missing or empty file reads as `([], [])`); the
return value is the file written to the output path. -/
def append_records_to_csv (existing_headers : List String)
    (existing_rows : List (List (String × String)))
    (records : List (List (String × Value)))
    (add_missing_columns : Bool) (keep_existing_rows : Bool) : CsvFile :=
  let headers0 := _compute_headers existing_headers records add_missing_columns
  let headers1 := if headers0 = [] then inferHeaders records else headers0
  let built := records.foldl
    (fun st rec =>
      let start := (st.1, initRow st.1)
      let fin := rec.foldl (buildRowStep add_missing_columns) start
      (fin.1, st.2 ++ [fin.2]))
    (headers1, ([] : List (List (String × String))))
  let headers2 := built.1
  let new_rows := built.2
  let existing_rows2 :=
    if add_missing_columns then existing_rows.map (padRow headers2) else existing_rows
  let new_rows2 :=
    if add_missing_columns then new_rows.map (padRow headers2) else new_rows
  let final_rows := (if keep_existing_rows then existing_rows2 else []) ++ new_rows2
  ⟨headers2, final_rows.map (rowToCells headers2)⟩

/-- Deduplication keeping the first occurrence, with an accumulator of the
elements already seen. -/
def dedupSeen {α : Type} [DecidableEq α] (seen : List α) : List α → List α
  | [] => []
  | x :: xs => if x ∈ seen then dedupSeen seen xs else x :: dedupSeen (x :: seen) xs

/-- Deduplication keeping the first occurrence (used both as the
specification of first-seen key order and to model Python's
`sorted(set(xs), key=...)`, whose selected-order properties below never
depend on the unspecified iteration order of the set). -/
def dedupFirst {α : Type} [DecidableEq α] (l : List α) : List α := dedupSeen [] l

/-- Specification-side reading of the column-merge sentence of the spec:
the keys appearing in the records, in first-seen order, that are not
already existing headers. -/
def specNewColumns (existing_headers : List String)
    (records : List (List (String × Value))) : List String :=
  dedupFirst (((records.map (fun r => r.map Prod.fst)).flatten).filter
    (fun k => k ∉ existing_headers))

/-!
Embedding of `select_images.py` and `ratings.py`: rating normalization and
the percentile-based collection filter.  The filesystem scan and the
ExifTool batch invocation are opaque collaborators; they enter as an
optional directory listing (`Option (List String)`, `Option.none` standing
for "not a directory") and a per-file star oracle
(`String → Option Int`, the normalized 0-5 stars ExifTool-based reading —
files ExifTool cannot read report no stars and are treated as unrated).
-/

/-- The Windows rating-percent cut points (`cuts` in
`_stars_from_percent`). -/
def ratingCuts : List Int := [1, 25, 50, 75, 99]

/-- The star values corresponding to `ratingCuts` (`stars` in
`_stars_from_percent`). -/
def ratingStars : List Int := [1, 2, 3, 4, 5]

/-- Embedding of `_stars_from_percent` (identical in `select_images.py` and
`ratings.py`): map a `MicrosoftPhoto RatingPercent` value to 0..5 stars.
Python's `min(range(len(cuts)), key=...)` keeps the first index attaining
the minimal key, which the fold below reproduces (strict-less
replacement). -/
def _stars_from_percent (pct : Int) : Int :=
  if pct ≤ 0 then 0
  else if pct ≥ 99 then 5
  else
    let idx := (List.range ratingCuts.length).foldl
      (fun best i =>
        if |ratingCuts.getD i 0 - pct| < |ratingCuts.getD best 0 - pct| then i else best) 0
    ratingStars.getD idx 0

/-- Insertion of one element into a sorted list, keeping the incoming
element before later-inserted equal ones. -/
def insertLe {α : Type} (le : α → α → Bool) (x : α) : List α → List α
  | [] => [x]
  | y :: ys => if le x y then x :: y :: ys else y :: insertLe le x ys

/-- Python's stable ascending `sorted(l, key=...)`, modelled as stable
insertion sort over the boolean comparison `le` (a total preorder for every
comparison used by the embedded code). -/
def pySorted {α : Type} (le : α → α → Bool) : List α → List α
  | [] => []
  | x :: xs => insertLe le x (pySorted le xs)

/-- The integer comparison used by `sorted(values)`. -/
def intLe (a b : Int) : Bool := decide (a ≤ b)

/-- Embedding of `select_images.percentile_nearest_rank`: nearest-rank
percentile, `q` clamped into `[0,1]`, 1-indexed rank `max 1 ⌈q·n⌉` into the
ascending sort.  The Python function raises on an empty sequence and would
raise on an out-of-range index, both modelled by `Option.none` (the latter
is proved unreachable below). -/
def percentile_nearest_rank (values : List Int) (q : ℚ) : Option Int :=
  if values = [] then Option.none
  else
    let q2 := min 1 (max 0 q)
    let vals := pySorted intLe values
    let n := values.length
    let rank := max 1 (⌈q2 * (n : ℚ)⌉.toNat)
    vals[rank - 1]?

/-- One rating snapshot per file (`select_images.RatingRecord`; the raw
pass-through fields `xmp_rating`, `ms_rating`, `ms_rating_percent` are
unused by the filtering logic and by every claim, and are omitted). -/
structure RatingRecord where
  path : String
  stars : Option Int
deriving DecidableEq

/-- The `stats` counter dict of `filter_images_by_rating` (fixed keys). -/
structure FilterStats where
  total_scanned : Nat
  rated : Nat
  unrated : Nat
  selected : Nat
deriving DecidableEq

/-- Embedding of `select_images.FilterResult`. -/
structure FilterResult where
  selected : List String
  cutoff_stars : Option Int
  rated : List RatingRecord
  unrated : List RatingRecord
  stats : FilterStats
deriving DecidableEq

/-- Python `s.lstrip(".")`: drop leading dots. -/
def lstripDots (s : String) : String :=
  (s.toList.dropWhile (fun c => c = '.')).asString

/-- Python `s.lower()` (Lean's own `String.toLower` is the same
character-wise map; this spelling keeps the function executable in the
kernel). -/
def strLower (s : String) : String := (s.toList.map Char.toLower).asString

/-- `pathlib.PurePath.name`: the component after the last separator. -/
def pathName (p : String) : String :=
  ((p.toList.reverse.takeWhile (fun c => c ≠ '/')).reverse).asString

/-- `pathlib.PurePath.suffix`: the final `".ext"` of the name, empty when
the last dot is the first character or the last character of the name. -/
def path_suffix (p : String) : String :=
  let cs := (pathName p).toList
  let n := cs.length
  let j := cs.reverse.findIdx (fun c => c = '.')
  if j < n then
    let i := n - 1 - j
    if 0 < i ∧ i < n - 1 then (cs.drop i).asString else ""
  else ""

/-- The extension filter of `collect_files`: with a truthy extension list,
keep files whose lower-cased, dot-stripped suffix is in the lower-cased,
dot-stripped allow set; with `None` or an empty list, keep everything. -/
def filterExtensions (files : List String) (extensions : Option (List String)) : List String :=
  match extensions with
  | Option.none => files
  | some exts =>
      if exts = [] then files
      else
        let extset := exts.map (fun e => lstripDots (strLower e))
        files.filter (fun p => lstripDots (strLower (path_suffix p)) ∈ extset)

/-- Embedding of `select_images.collect_files`.  `folder` is the requested
path (used in the error message); `listing` is the filesystem's answer:
`Option.none` when the path is not a directory, otherwise the (recursive or
flat, per the caller's flag) list of files under it. -/
def collect_files (folder : String) (listing : Option (List String))
    (extensions : Option (List String)) : Except String (List String) :=
  match listing with
  | Option.none => .error ("Not a directory: " ++ folder)
  | some files => .ok (filterExtensions files extensions)

/-- The default photo-extension allow list of `filter_images_by_rating`. -/
def default_extensions : List String :=
  ["jpg", "jpeg", "tif", "tiff", "png", "heic", "cr2", "nef", "arw", "dng"]

/-- `exts = extensions if extensions else default_exts`: Python truthiness,
so both `None` and an empty list fall back to the defaults. -/
def resolve_extensions (extensions : Option (List String)) : List String :=
  match extensions with
  | Option.none => default_extensions
  | some l => if l = [] then default_extensions else l

/-- Lexicographic comparison of character lists by code point — Python's
string `<=`. -/
def charListLe : List Char → List Char → Bool
  | [], _ => true
  | _ :: _, [] => false
  | a :: as, b :: bs => if a = b then charListLe as bs else decide (a < b)

/-- Comparison used for the deterministic orderings of
`filter_images_by_rating` (Python `str(p1).lower() <= str(p2).lower()`,
the ordering induced by `sorted(..., key=lambda p: str(p).lower())`). -/
def pathLe (a b : String) : Bool :=
  charListLe (a.toList.map Char.toLower) (b.toList.map Char.toLower)

/-- The `by_path` dict of `filter_images_by_rating` (ExifTool rows merged
with files ExifTool skipped), reduced to its values: one `RatingRecord`
per distinct file, in first-seen order, carrying the oracle's stars. -/
def ratingRecordsOf (stars : String → Option Int) (files : List String) :
    List RatingRecord :=
  (dedupFirst files).map (fun f => RatingRecord.mk f (stars f))

/-- `rated = [r for r in by_path.values() if r.stars is not None]`. -/
def ratedOf (records : List RatingRecord) : List RatingRecord :=
  records.filter (fun r => r.stars.isSome)

/-- `unrated = [r for r in by_path.values() if r.stars is None]`. -/
def unratedOf (records : List RatingRecord) : List RatingRecord :=
  records.filter (fun r => r.stars.isNone)

/-- The percentile cutoff of `filter_images_by_rating`: absent when no
rated file exists, else the nearest-rank percentile of the rated stars. -/
def cutoffOf (records : List RatingRecord) (percentile : ℚ) : Option Int :=
  if ratedOf records = [] then Option.none
  else percentile_nearest_rank ((ratedOf records).filterMap (fun r => r.stars)) percentile

/-- The selection of `filter_images_by_rating`: rated paths at or above
the cutoff, plus the unrated paths when requested, then
`sorted(set(...), key=str.lower)` — modelled as first-occurrence
deduplication followed by a stable sort on the lower-cased path (every
property proved about the selection is independent of the unspecified
set-iteration order among lower-case-equal ties). -/
def selectedOf (records : List RatingRecord) (percentile : ℚ)
    (include_unrated_in_result : Bool) : List String :=
  let sel1 := match cutoffOf records percentile with
    | some c =>
        ((ratedOf records).filter (fun r => match r.stars with
          | some s => decide (c ≤ s)
          | Option.none => false)).map (fun r => r.path)
    | Option.none => []
  let sel2 := sel1 ++
    (if include_unrated_in_result then (unratedOf records).map (fun r => r.path) else [])
  pySorted pathLe (dedupFirst sel2)

/-- Embedding of `select_images.filter_images_by_rating`, assembled from
the stages above in the order of the Python function. -/
def filter_images_by_rating (folder : String) (listing : Option (List String))
    (stars : String → Option Int) (percentile : ℚ)
    (include_unrated_in_result : Bool)
    (extensions : Option (List String)) : Except String FilterResult :=
  let exts := resolve_extensions extensions
  match collect_files folder listing (some exts) with
  | .error e => .error e
  | .ok files =>
    if files = [] then
      .ok ⟨[], Option.none, [], [], ⟨0, 0, 0, 0⟩⟩
    else
      let records := ratingRecordsOf stars files
      .ok ⟨selectedOf records percentile include_unrated_in_result,
           cutoffOf records percentile,
           pySorted (fun a b => pathLe a.path b.path) (ratedOf records),
           pySorted (fun a b => pathLe a.path b.path) (unratedOf records),
           ⟨files.length, (ratedOf records).length, (unratedOf records).length,
            (selectedOf records percentile include_unrated_in_result).length⟩⟩

/-- Piecewise closed form of `_stars_from_percent`, used to prove its
monotonicity (the breakpoints 13/37/62/87 are where the nearest cut
changes, ties resolving to the lower cut). -/
def starsPiecewise (p : Int) : Int :=
  if p ≤ 0 then 0
  else if p ≤ 13 then 1
  else if p ≤ 37 then 2
  else if p ≤ 62 then 3
  else if p ≤ 87 then 4
  else 5

/-!
Embedding of `parse_exif.py`: metadata condensation and augmentation.
`read_all_metadata` is a pass-through to ExifTool / Pillow (out of scope);
a metadata mapping enters the model directly as an ordered dict
`List (String × Value)`.
-/

/-- Embedding of `parse_exif._first_present`: the first `meta[k]` that
exists and is not `None`; Python returns `None` when no candidate matches,
which is `Value.none` here. -/
def _first_present (meta : List (String × Value)) (keys : List String) : Value :=
  match keys with
  | [] => Value.none
  | k :: rest =>
      match dictGet meta k with
      | some v => if v = Value.none then _first_present meta rest else v
      | Option.none => _first_present meta rest

/-- Python `all(isinstance(x, str) for x in l)`. -/
def allStrings (l : List Value) : Bool :=
  l.all (fun v => match v with | Value.str _ => true | _ => false)

/-- Python `all(isinstance(x, dict) for x in l)`. -/
def allDicts (l : List Value) : Bool :=
  l.all (fun v => match v with | Value.dict _ => true | _ => false)

/-- Embedding of `parse_exif._extract_nested`: unwrap
`meta[parent][child_key]` across the parent shapes the code handles
(string list passed through, dict child lookup, list-of-dicts child
collection collapsing a singleton, anything else returned as-is). -/
def _extract_nested (meta : List (String × Value)) (parent_keys : List String)
    (child_key : String) : Value :=
  match _first_present meta parent_keys with
  | Value.none => Value.none
  | Value.list l =>
      if allStrings l then Value.list l
      else if allDicts l then
        let vals := l.filterMap (fun v =>
          match v with
          | Value.dict d =>
              match dictGet d child_key with
              | some w => if w = Value.none then Option.none else some w
              | Option.none => Option.none
          | _ => Option.none)
        match vals with
        | [] => Value.none
        | [w] => w
        | ws => Value.list ws
      else Value.list l
  | Value.dict d =>
      match dictGet d child_key with
      | some w => w
      | Option.none => Value.none
  | v => v

/-- The `while out["title"][-1] == " "` loop of `condense_metadata`, seen
from the right end of the string: popping trailing spaces, raising
`IndexError` when the string runs out (which it also does immediately on an
empty title). -/
def rstripRev : List Char → Except String (List Char)
  | [] => .error "IndexError: string index out of range"
  | c :: rest => if c = ' ' then rstripRev rest else .ok (c :: rest)

/-- The trailing-space loop on a `String`. -/
def rstripSpacesPy (s : String) : Except String String :=
  (rstripRev s.toList.reverse).map (fun l => l.reverse.asString)

/-- One pass of Python `s.replace("  ", " ")` (left-to-right,
non-overlapping). -/
def replaceDoubleSpaceOnce : List Char → List Char
  | [] => []
  | [c] => [c]
  | c1 :: c2 :: rest =>
      if c1 = ' ' ∧ c2 = ' ' then ' ' :: replaceDoubleSpaceOnce rest
      else c1 :: replaceDoubleSpaceOnce (c2 :: rest)

/-- Python `s.find("  ") != -1`. -/
def hasDoubleSpace : List Char → Bool
  | [] => false
  | [_] => false
  | c1 :: c2 :: rest =>
      if c1 = ' ' ∧ c2 = ' ' then true else hasDoubleSpace (c2 :: rest)

/-- A replacement pass never lengthens the string. -/
theorem replaceDoubleSpaceOnce_length_le :
    ∀ l : List Char, (replaceDoubleSpaceOnce l).length ≤ l.length := by
  intro l
  induction l using replaceDoubleSpaceOnce.induct with
  | case1 => simp [replaceDoubleSpaceOnce]
  | case2 c => simp [replaceDoubleSpaceOnce]
  | case3 c1 c2 rest h ih =>
      simp only [replaceDoubleSpaceOnce, if_pos h, List.length_cons]
      omega
  | case4 c1 c2 rest h ih =>
      simp only [replaceDoubleSpaceOnce, if_neg h, List.length_cons]
      simpa using ih

/-- Key step for the termination of the `while s.find("  ") != -1` loop:
each replacement pass strictly shortens a string that still has a double
space. -/
theorem replaceDoubleSpaceOnce_length_lt :
    ∀ l : List Char, hasDoubleSpace l = true →
      (replaceDoubleSpaceOnce l).length < l.length := by
  intro l
  induction l using replaceDoubleSpaceOnce.induct with
  | case1 => intro h; simp [hasDoubleSpace] at h
  | case2 c => intro h; simp [hasDoubleSpace] at h
  | case3 c1 c2 rest h ih =>
      intro _
      have := replaceDoubleSpaceOnce_length_le rest
      simp only [replaceDoubleSpaceOnce, if_pos h, List.length_cons]
      omega
  | case4 c1 c2 rest h ih =>
      intro hds
      have hds2 : hasDoubleSpace (c2 :: rest) = true := by
        simpa [hasDoubleSpace, if_neg h] using hds
      have := ih hds2
      simp only [List.length_cons] at this
      simp only [replaceDoubleSpaceOnce, if_neg h, List.length_cons]
      omega

/-- The `while out["title"].find("  ") != -1` loop: repeatedly replace
double spaces until none remain. -/
def collapseSpacesLoop (l : List Char) : List Char :=
  if h : hasDoubleSpace l = true then
    collapseSpacesLoop (replaceDoubleSpaceOnce l)
  else l
termination_by l.length
decreasing_by
  exact replaceDoubleSpaceOnce_length_lt l h

/-- The double-space collapsing loop on a `String`. -/
def collapseSpaces (s : String) : String := (collapseSpacesLoop s.toList).asString

/-- The title clean-up block of `condense_metadata`: on a string, strip
trailing spaces (the unguarded `[-1]` indexing raises `IndexError` on an
empty or all-space string), replace newlines by spaces, then collapse
repeated spaces.  A present non-string title always raises
(`TypeError`/`IndexError`/`AttributeError` depending on its shape); a
missing title (`None`) is passed through untouched. -/
def processTitle : Value → Except String Value
  | Value.none => .ok Value.none
  | Value.str s =>
      (rstripSpacesPy s).map (fun t => Value.str (collapseSpaces (t.replace "\n" " ")))
  | _ => .error "TypeError: title value is not a string"

/-- The `temp += " " + person` concatenation loop of `condense_metadata`
(raises `TypeError` as soon as a non-string participant is found). -/
def concatPeople (acc : String) : List Value → Except String String
  | [] => .ok acc
  | Value.str s :: rest => concatPeople (acc ++ " " ++ s) rest
  | _ :: _ => .error "TypeError: can only concatenate str"

/-- The people-list block of `condense_metadata`: a list value is joined
into one space-separated string (`temp = l[0]` raises `IndexError` on an
empty list; a one-element list passes its single element through unchanged;
two or more elements require strings throughout); a non-list value passes
through unchanged. -/
def processPeople : Value → Except String Value
  | Value.list [] => .error "IndexError: list index out of range"
  | Value.list [x] => .ok x
  | Value.list (Value.str s0 :: v :: rest) => (concatPeople s0 (v :: rest)).map Value.str
  | Value.list (_ :: _ :: _) => .error "TypeError: can only concatenate str"
  | v => .ok v

/-- Python truthiness (`if loc.get(k)`), on the value shapes of the
model. -/
def isTruthy : Value → Bool
  | Value.none => false
  | Value.str s => s ≠ ""
  | Value.int n => n ≠ 0
  | Value.bool b => b
  | Value.rat q => q ≠ 0
  | Value.list l => !l.isEmpty
  | Value.dict d => !d.isEmpty

/-- The location block of `condense_metadata`: a dict location is rendered
by joining its truthy `Sublocation`/`City`/`ProvinceState`/`CountryName`
entries with `", "` (a non-string truthy entry makes `", ".join` raise
`TypeError`); with no truthy entry the raw dict is kept; any non-dict value
passes through unchanged. -/
def processLocation : Value → Except String Value
  | Value.dict loc =>
      let pieces := ["Sublocation", "City", "ProvinceState", "CountryName"].filterMap
        (fun k => match dictGet loc k with
          | some v => if isTruthy v then some v else Option.none
          | Option.none => Option.none)
      if pieces = [] then .ok (Value.dict loc)
      else if allStrings pieces then
        .ok (Value.str (String.intercalate ", " (pieces.map pyStr)))
      else .error "TypeError: sequence item is not str"
  | v => .ok v

/-- Embedding of `parse_exif.condense_metadata`: map a maximal metadata
mapping onto the fixed condensed schema by first-present-wins key lookup,
with the title, people, nested-supplier and location unwrapping blocks.
Python exceptions escaping the function are the `Except.error` results. -/
def condense_metadata (meta : List (String × Value)) :
    Except String (List (String × Value)) := do
  let title ← processTitle (_first_present meta
    ["XMP-dc:Description", "IFD0:ImageDescription", "Description", "ImageDescription"])
  let beginV := _first_present meta ["EXIF:CreateDate", "CreateDate", "XMP-xmp:CreateDate"]
  let pa1 := _first_present meta ["IPTC:By-line", "IFD0:Artist", "Creator", "Artist"]
  let pa2 ← processPeople (_first_present meta ["XMP-iptcExt:PersonInImage"])
  let subj := _extract_nested meta ["XMP-plus:ImageSupplier"] "ImageSupplierName"
  let nodd ← processLocation (_first_present meta ["XMP-iptcCore:Location"])
  let nabs := _first_present meta ["XMP-photoshop:Headline"]
  pure [("title", title), ("begin", beginV), ("people_agent_header_1", pa1),
        ("people_agent_header_2", pa2), ("subject_1_term", subj),
        ("n_odd", nodd), ("n_abstract", nabs)]

/-- Embedding of `parse_exif._non_null`: a value counts as present when it
is not `None`, for strings not empty or whitespace-only (`x.strip() != ""`),
and for lists/tuples/sets/dicts not empty; numbers and booleans always
count. -/
def _non_null : Value → Bool
  | Value.none => false
  | Value.str s => !(s.toList.all Char.isWhitespace)
  | Value.list l => !l.isEmpty
  | Value.dict d => !d.isEmpty
  | Value.int _ => true
  | Value.bool _ => true
  | Value.rat _ => true

/-- Python `_non_null(out.get(k))`: a missing key reads as `None`. -/
def _non_null_opt : Option Value → Bool
  | some v => _non_null v
  | Option.none => false

/-- Round half to even (Python's `round` on the exact rational value; the
binary-float representation error of the real `round` is not modelled and
no claim depends on it). -/
def roundHalfEven (x : ℚ) : Int :=
  let f := ⌊x⌋
  if x - f < 1 / 2 then f
  else if x - f > 1 / 2 then f + 1
  else if Even f then f else f + 1

/-- Python `round(x, digits)` on the exact rational value. -/
def pyRound (x : ℚ) (digits : Nat) : ℚ :=
  (roundHalfEven (x * 10 ^ digits) : ℚ) / 10 ^ digits

/-- One `if _non_null(out.get(src)): out[k1] = v1; out[k2] = v2` block of
`augment_condensed_metadata`. -/
def addPair (cond : Bool) (d : List (String × Value)) (k1 : String) (v1 : Value)
    (k2 : String) (v2 : Value) : List (String × Value) :=
  if cond then dictSet (dictSet d k1 v1) k2 v2 else d

/-- Steps 1-3 of `parse_exif.augment_condensed_metadata`: copy the record,
add the hierarchy label, the file size fields and the unconditional
standard fields.  The `image_path.stat()` call is an opaque filesystem read
and enters as `size_bytes` (`Option.none` standing for `FileNotFoundError`,
the degraded path that records the size as absent). -/
def augmentStatic (size_bytes : Option Nat) (condensed : List (String × Value))
    (hierarchy : Value) (mb_base : Nat) (round_digits : Nat) : List (String × Value) :=
  let out := condensed
  let out := dictSet out "hierarchy" hierarchy
  let out := match size_bytes with
    | some s =>
        dictSet (dictSet out "number"
          (Value.rat (pyRound ((s : ℚ) / ((mb_base : ℚ) ^ 2)) round_digits)))
          "extent_type" (Value.str "MB")
    | Option.none =>
        dictSet (dictSet out "number" Value.none) "extent_type" (Value.str "MB")
  let out := dictSet out "restrictions_flag" (Value.str "Yes")
  let out := dictSet out "processing_note" (Value.str
    "This picture was held in VandyVision, the digital asset management system called PhotoShelter.")
  let out := dictSet out "portion" (Value.str "1")
  let out := dictSet out "type_2" (Value.str "Item")
  let out := dictSet out "p_acqinfo" (Value.str "Yes")
  dictSet out "n_acqinfo" (Value.str "PhotoShelter https://www.photoshelter.com")

/-- Embedding of `parse_exif.augment_condensed_metadata`: the static stage
followed by the five conditional descriptor-pair blocks (each keyed on the
presence of its condensed source field at that point of the mutation
sequence, exactly as in the Python statement order).  The input record is
copied, never mutated, matching `out = dict(condensed)`. -/
def augment_condensed_metadata (size_bytes : Option Nat)
    (condensed : List (String × Value)) (hierarchy : Value)
    (mb_base : Nat) (round_digits : Nat) : List (String × Value) :=
  let out := augmentStatic size_bytes condensed hierarchy mb_base round_digits
  let out := addPair (_non_null_opt (dictGet out "begin")) out
    "dates_label" (Value.str "creation") "date_type" (Value.str "single")
  let out := addPair (_non_null_opt (dictGet out "people_agent_header_1")) out
    "people_agent_role_1" (Value.str "creator") "people_agent_relator_1" (Value.str "photographer")
  let out := addPair (_non_null_opt (dictGet out "people_agent_header_2")) out
    "people_agent_role_2" (Value.str "subject") "people_agent_relator_2" (Value.str "associated name")
  let out := addPair (_non_null_opt (dictGet out "n_odd")) out
    "p_odd" (Value.str "Yes") "l_odd" (Value.str "location")
  let out := addPair (_non_null_opt (dictGet out "subject_1_term")) out
    "subject_1_type" (Value.str "topical") "subject_1_source" (Value.str "local sources")
  out

/-- Specification-side space-joining of a people list ("joined into a
single space-separated string"). -/
def spaceJoined : List String → String
  | [] => ""
  | [n] => n
  | n :: rest => n ++ " " ++ spaceJoined rest

/-- Concrete example directory listing for the median-selection scenario
(rated stars 1, 1, 2, 3, 5). -/
def sampleListing : List String := ["a1.jpg", "b2.jpg", "c3.jpg", "d4.jpg", "e5.jpg"]

/-- Star oracle for the scenario: the five files carry stars 1, 1, 2, 3, 5. -/
def sampleStars : String → Option Int := fun f =>
  if f = "a1.jpg" then some 1
  else if f = "b2.jpg" then some 1
  else if f = "c3.jpg" then some 2
  else if f = "d4.jpg" then some 3
  else if f = "e5.jpg" then some 5
  else Option.none

/-- The `FilterResult` the scenario run produces: cutoff 2, selection the
files rated 2, 3 and 5. -/
def sampleFilterResult : FilterResult :=
  ⟨["c3.jpg", "d4.jpg", "e5.jpg"], some 2,
   [⟨"a1.jpg", some 1⟩, ⟨"b2.jpg", some 1⟩, ⟨"c3.jpg", some 2⟩,
    ⟨"d4.jpg", some 3⟩, ⟨"e5.jpg", some 5⟩],
   [], ⟨5, 5, 0, 3⟩⟩

/-!
Theorems.
-/

theorem stars_eq_piecewise (p : Int) : _stars_from_percent p = starsPiecewise p := by
  by_cases hp0 : p ≤ 0
  · simp [_stars_from_percent, starsPiecewise, hp0]
  · by_cases hp99 : p ≥ 99
    · have h1 : ¬p ≤ 13 := by omega
      have h2 : ¬p ≤ 37 := by omega
      have h3 : ¬p ≤ 62 := by omega
      have h4 : ¬p ≤ 87 := by omega
      simp [_stars_from_percent, starsPiecewise, hp0, hp99, h1, h2, h3, h4]
    · have hmem : p ∈ Finset.Icc (1 : ℤ) 98 := by
        simp only [Finset.mem_Icc]
        omega
      have hall : ∀ x ∈ Finset.Icc (1 : ℤ) 98,
          _stars_from_percent x = starsPiecewise x := by decide
      exact hall p hmem

theorem stars_nearest_cut_on_range :
    ∀ p ∈ Finset.Icc (1 : ℤ) 98,
      ∃ i : Nat, i < 5 ∧ _stars_from_percent p = ratingStars.getD i 0 ∧
        (∀ j : Nat, j < 5 → |ratingCuts.getD i 0 - p| ≤ |ratingCuts.getD j 0 - p|) ∧
        (∀ j : Nat, j < i → |ratingCuts.getD i 0 - p| < |ratingCuts.getD j 0 - p|) := by
  decide

/-- C3: for every integer percent value, `_stars_from_percent` returns a
value in 0..5, is monotonically non-decreasing, maps `p ≤ 0` to 0 stars and
`p ≥ 99` to 5 stars, and for `0 < p < 99` returns the star of the cut in
`{1,25,50,75,99}` nearest by absolute distance, the lower-index cut winning
an exact tie. -/
theorem stars_from_percent_spec (p p2 : Int) (hle : p ≤ p2) :
    _stars_from_percent p ∈ ([0, 1, 2, 3, 4, 5] : List Int) ∧
    _stars_from_percent p ≤ _stars_from_percent p2 ∧
    (p ≤ 0 → _stars_from_percent p = 0) ∧
    (99 ≤ p → _stars_from_percent p = 5) ∧
    (0 < p → p < 99 →
      ∃ i : Nat, i < 5 ∧ _stars_from_percent p = ratingStars.getD i 0 ∧
        (∀ j : Nat, j < 5 → |ratingCuts.getD i 0 - p| ≤ |ratingCuts.getD j 0 - p|) ∧
        (∀ j : Nat, j < i → |ratingCuts.getD i 0 - p| < |ratingCuts.getD j 0 - p|)) := by
  refine ⟨?_, ?_, ?_, ?_, ?_⟩
  · rw [stars_eq_piecewise]
    unfold starsPiecewise
    split_ifs <;> simp
  · rw [stars_eq_piecewise, stars_eq_piecewise]
    unfold starsPiecewise
    split_ifs <;> omega
  · intro h0
    simp [_stars_from_percent, h0]
  · intro h99
    have h0 : ¬p ≤ 0 := by omega
    simp [_stars_from_percent, h0, show p ≥ 99 from h99]
  · intro hlo hhi
    exact stars_nearest_cut_on_range p (by simp only [Finset.mem_Icc]; omega)

theorem stars_from_percent_spec_witness :
    ((3 : Int) ≤ 50) ∧
    (_stars_from_percent 3 ∈ ([0, 1, 2, 3, 4, 5] : List Int) ∧
    _stars_from_percent 3 ≤ _stars_from_percent 50 ∧
    ((3 : Int) ≤ 0 → _stars_from_percent 3 = 0) ∧
    ((99 : Int) ≤ 3 → _stars_from_percent 3 = 5) ∧
    ((0 : Int) < 3 → (3 : Int) < 99 →
      ∃ i : Nat, i < 5 ∧ _stars_from_percent 3 = ratingStars.getD i 0 ∧
        (∀ j : Nat, j < 5 → |ratingCuts.getD i 0 - 3| ≤ |ratingCuts.getD j 0 - 3|) ∧
        (∀ j : Nat, j < i → |ratingCuts.getD i 0 - 3| < |ratingCuts.getD j 0 - 3|))) :=
  ⟨by decide, stars_from_percent_spec 3 50 (by decide)⟩

/-- C6: `_normalize_cell` stringifies an absent value to the empty string,
a list/tuple of only scalar values to the `"; "`-joined string of its
elements, and any other value to its JSON serialization (dicts and
non-scalar lists) or its plain `str` form (scalars). -/
theorem normalize_cell_spec (l l2 : List Value) (d : List (String × Value))
    (s : String) (n : Int) (b : Bool) (q : ℚ)
    (hs : l.all isScalar = true) (hns : l2.all isScalar = false) :
    _normalize_cell Value.none = "" ∧
    _normalize_cell (Value.list l) =
      String.intercalate "; " (l.map (fun x => if x = Value.none then "" else pyStr x)) ∧
    _normalize_cell (Value.list l2) = jsonDumps (Value.list l2) ∧
    _normalize_cell (Value.dict d) = jsonDumps (Value.dict d) ∧
    _normalize_cell (Value.str s) = pyStr (Value.str s) ∧
    _normalize_cell (Value.int n) = pyStr (Value.int n) ∧
    _normalize_cell (Value.bool b) = pyStr (Value.bool b) ∧
    _normalize_cell (Value.rat q) = pyStr (Value.rat q) := by
  refine ⟨rfl, ?_, ?_, rfl, rfl, rfl, rfl, rfl⟩
  · simp [_normalize_cell, hs]
  · simp [_normalize_cell, hns]

theorem normalize_cell_spec_witness :
    (([Value.str "a", Value.int 3, Value.none].all isScalar = true) ∧
     ([Value.list [], Value.int 1].all isScalar = false)) ∧
    (_normalize_cell Value.none = "" ∧
    _normalize_cell (Value.list [Value.str "a", Value.int 3, Value.none]) =
      String.intercalate "; "
        ([Value.str "a", Value.int 3, Value.none].map
          (fun x => if x = Value.none then "" else pyStr x)) ∧
    _normalize_cell (Value.list [Value.list [], Value.int 1]) =
      jsonDumps (Value.list [Value.list [], Value.int 1]) ∧
    _normalize_cell (Value.dict [("a", Value.str "b")]) =
      jsonDumps (Value.dict [("a", Value.str "b")]) ∧
    _normalize_cell (Value.str "x y") = pyStr (Value.str "x y") ∧
    _normalize_cell (Value.int (-7)) = pyStr (Value.int (-7)) ∧
    _normalize_cell (Value.bool true) = pyStr (Value.bool true) ∧
    _normalize_cell (Value.rat (3 / 2)) = pyStr (Value.rat (3 / 2))) ∧
    _normalize_cell (Value.list [Value.str "a", Value.int 3, Value.none]) = "a; 3; " :=
  ⟨⟨by decide, by decide⟩,
   normalize_cell_spec [Value.str "a", Value.int 3, Value.none] [Value.list [], Value.int 1]
     [("a", Value.str "b")] "x y" (-7) true (3 / 2) (by decide) (by decide),
   by decide⟩


theorem insertLe_perm {α : Type} (le : α → α → Bool) (x : α) :
    ∀ l : List α, (insertLe le x l).Perm (x :: l) := by
  intro l
  induction l with
  | nil => simp [insertLe]
  | cons y ys ih =>
      by_cases h : le x y = true
      · simp [insertLe, h]
      · simp only [insertLe, if_neg h]
        exact (ih.cons y).trans (List.Perm.swap x y ys)

theorem pySorted_perm {α : Type} (le : α → α → Bool) :
    ∀ l : List α, (pySorted le l).Perm l := by
  intro l
  induction l with
  | nil => simp [pySorted]
  | cons x xs ih => exact (insertLe_perm le x (pySorted le xs)).trans (ih.cons x)

theorem insertLe_pairwise {α : Type} {le : α → α → Bool}
    (htrans : ∀ a b c, le a b = true → le b c = true → le a c = true)
    (htot : ∀ a b, le a b = true ∨ le b a = true) (x : α) :
    ∀ {l : List α}, l.Pairwise (fun a b => le a b = true) →
      (insertLe le x l).Pairwise (fun a b => le a b = true) := by
  intro l
  induction l with
  | nil => intro _; simp [insertLe]
  | cons y ys ih =>
      intro hp
      rw [List.pairwise_cons] at hp
      obtain ⟨hy, hys⟩ := hp
      by_cases h : le x y = true
      · simp only [insertLe, if_pos h]
        rw [List.pairwise_cons]
        refine ⟨?_, ?_⟩
        · intro z hz
          rcases List.mem_cons.mp hz with rfl | hz2
          · exact h
          · exact htrans x y z h (hy z hz2)
        · rw [List.pairwise_cons]
          exact ⟨hy, hys⟩
      · simp only [insertLe, if_neg h]
        rw [List.pairwise_cons]
        refine ⟨?_, ih hys⟩
        intro z hz
        have hz2 : z ∈ x :: ys := (insertLe_perm le x ys).mem_iff.mp hz
        rcases List.mem_cons.mp hz2 with rfl | hz3
        · rcases htot z y with hzy | hyz
          · exact absurd hzy h
          · exact hyz
        · exact hy z hz3

theorem pySorted_pairwise {α : Type} {le : α → α → Bool}
    (htrans : ∀ a b c, le a b = true → le b c = true → le a c = true)
    (htot : ∀ a b, le a b = true ∨ le b a = true) :
    ∀ l : List α, (pySorted le l).Pairwise (fun a b => le a b = true) := by
  intro l
  induction l with
  | nil => simp [pySorted]
  | cons x xs ih => exact insertLe_pairwise htrans htot x ih

theorem intLe_trans : ∀ a b c : Int, intLe a b = true → intLe b c = true →
    intLe a c = true := by
  intro a b c hab hbc
  simp only [intLe, decide_eq_true_eq] at hab hbc ⊢
  exact le_trans hab hbc

theorem intLe_total : ∀ a b : Int, intLe a b = true ∨ intLe b a = true := by
  intro a b
  simpa [intLe] using le_total a b

theorem pySorted_int_sorted (values : List Int) :
    List.Sorted (· ≤ ·) (pySorted intLe values) := by
  have h := pySorted_pairwise intLe_trans intLe_total values
  exact h.imp (fun hab => by simpa [intLe] using hab)

theorem pySorted_length {α : Type} (le : α → α → Bool) (l : List α) :
    (pySorted le l).length = l.length :=
  (pySorted_perm le l).length_eq

theorem mem_dedupSeen {α : Type} [DecidableEq α] (a : α) :
    ∀ (l seen : List α), a ∈ dedupSeen seen l ↔ a ∈ l ∧ a ∉ seen := by
  intro l
  induction l with
  | nil => intro seen; simp [dedupSeen]
  | cons x xs ih =>
      intro seen
      by_cases hx : x ∈ seen
      · rw [show dedupSeen seen (x :: xs) = dedupSeen seen xs from if_pos hx]
        rw [ih seen]
        constructor
        · rintro ⟨h1, h2⟩
          exact ⟨List.mem_cons_of_mem x h1, h2⟩
        · rintro ⟨h1, h2⟩
          rcases List.mem_cons.mp h1 with rfl | h3
          · exact absurd hx h2
          · exact ⟨h3, h2⟩
      · rw [show dedupSeen seen (x :: xs) = x :: dedupSeen (x :: seen) xs from if_neg hx]
        constructor
        · intro h
          rcases List.mem_cons.mp h with rfl | h2
          · exact ⟨List.mem_cons_self a xs, hx⟩
          · obtain ⟨h3, h4⟩ := (ih (x :: seen)).mp h2
            refine ⟨List.mem_cons_of_mem x h3, ?_⟩
            intro hc
            exact h4 (List.mem_cons_of_mem x hc)
        · rintro ⟨h1, h2⟩
          rcases List.mem_cons.mp h1 with rfl | h3
          · exact List.mem_cons_self a _
          · by_cases hax : a = x
            · subst hax
              exact List.mem_cons_self a _
            · refine List.mem_cons_of_mem x ((ih (x :: seen)).mpr ⟨h3, ?_⟩)
              intro hc
              rcases List.mem_cons.mp hc with h4 | h5
              · exact hax h4
              · exact h2 h5

theorem mem_dedupFirst {α : Type} [DecidableEq α] (a : α) (l : List α) :
    a ∈ dedupFirst l ↔ a ∈ l := by
  unfold dedupFirst
  rw [mem_dedupSeen]
  simp

theorem nodup_dedupSeen {α : Type} [DecidableEq α] :
    ∀ (l seen : List α), (dedupSeen seen l).Nodup := by
  intro l
  induction l with
  | nil => intro seen; simp [dedupSeen]
  | cons x xs ih =>
      intro seen
      by_cases hx : x ∈ seen
      · rw [show dedupSeen seen (x :: xs) = dedupSeen seen xs from if_pos hx]
        exact ih seen
      · rw [show dedupSeen seen (x :: xs) = x :: dedupSeen (x :: seen) xs from if_neg hx]
        rw [List.nodup_cons]
        refine ⟨?_, ih (x :: seen)⟩
        intro hc
        exact ((mem_dedupSeen x xs (x :: seen)).mp hc).2 (List.mem_cons_self x seen)

theorem nodup_dedupFirst {α : Type} [DecidableEq α] (l : List α) :
    (dedupFirst l).Nodup := nodup_dedupSeen l []

theorem percentile_rank_le (values : List Int) (q : ℚ) (h : values ≠ []) :
    max 1 (⌈min 1 (max 0 q) * (values.length : ℚ)⌉.toNat) ≤ values.length := by
  have hn : 0 < values.length := List.length_pos.mpr h
  have hq1 : min 1 (max 0 q) ≤ 1 := min_le_left _ _
  have hmul : min 1 (max 0 q) * (values.length : ℚ) ≤ (values.length : ℚ) := by
    calc min 1 (max 0 q) * (values.length : ℚ) ≤ 1 * (values.length : ℚ) := by
          apply mul_le_mul_of_nonneg_right hq1
          positivity
      _ = (values.length : ℚ) := one_mul _
  have hceil : ⌈min 1 (max 0 q) * (values.length : ℚ)⌉ ≤ (values.length : ℤ) := by
    apply Int.ceil_le.mpr
    exact_mod_cast hmul
  have htn : (⌈min 1 (max 0 q) * (values.length : ℚ)⌉).toNat ≤ values.length :=
    Int.toNat_le.mpr hceil
  omega

theorem sorted_le_last {l : List Int} (hs : List.Sorted (· ≤ ·) l) (i : Fin l.length)
    (hi : (i : Nat) = l.length - 1) : ∀ x ∈ l, x ≤ l.get i := by
  intro x hx
  obtain ⟨j, rfl⟩ := List.mem_iff_get.mp hx
  rcases Nat.lt_or_ge (j : Nat) (i : Nat) with hlt | hge
  · exact hs.rel_get_of_lt hlt
  · have hji : (j : Nat) = (i : Nat) := by
      have := j.isLt
      omega
    rw [Fin.ext hji]

theorem sorted_first_le {l : List Int} (hs : List.Sorted (· ≤ ·) l) (i : Fin l.length)
    (hi : (i : Nat) = 0) : ∀ x ∈ l, l.get i ≤ x := by
  intro x hx
  obtain ⟨j, rfl⟩ := List.mem_iff_get.mp hx
  rcases Nat.eq_zero_or_pos (j : Nat) with hz | hpos
  · rw [Fin.ext (show (j : Nat) = (i : Nat) by omega)]
  · exact hs.rel_get_of_lt (show (i : Nat) < (j : Nat) by omega)

theorem percentile_eq_get (values : List Int) (q : ℚ) (h : values ≠ []) (k : Nat)
    (hk : max 1 (⌈min 1 (max 0 q) * (values.length : ℚ)⌉.toNat) - 1 = k)
    (pf : k < (pySorted intLe values).length) :
    percentile_nearest_rank values q = some ((pySorted intLe values).get ⟨k, pf⟩) := by
  unfold percentile_nearest_rank
  rw [if_neg h]
  show (pySorted intLe values)[max 1
    (⌈min 1 (max 0 q) * (values.length : ℚ)⌉.toNat) - 1]? = _
  rw [hk]
  simp only [List.get_eq_getElem]
  exact List.getElem?_eq_getElem pf

/-- C2: for every non-empty integer list and every `q`,
`percentile_nearest_rank` returns the element at 1-indexed rank
`max 1 ⌈q·n⌉` (with `q` clamped into `[0,1]`) of the ascending sort;
consequently the result is an element of the input, `q = 1` yields the
maximum and `q = 0` yields the rank-1 (minimum) element. -/
theorem percentile_nearest_rank_spec (values : List Int) (q : ℚ) (h : values ≠ []) :
    percentile_nearest_rank values q =
      (pySorted intLe values)[max 1
        (⌈min 1 (max 0 q) * (values.length : ℚ)⌉.toNat) - 1]? ∧
    (∃ r, percentile_nearest_rank values q = some r ∧ r ∈ values) ∧
    (∃ m, percentile_nearest_rank values 1 = some m ∧ m ∈ values ∧ ∀ x ∈ values, x ≤ m) ∧
    (∃ m, percentile_nearest_rank values 0 = some m ∧ m ∈ values ∧ ∀ x ∈ values, m ≤ x) := by
  have hn : 0 < values.length := List.length_pos.mpr h
  have hlen : (pySorted intLe values).length = values.length := pySorted_length intLe values
  have hperm := pySorted_perm intLe values
  have hsorted := pySorted_int_sorted values
  have hr := percentile_rank_le values q h
  have pf : max 1 (⌈min 1 (max 0 q) * (values.length : ℚ)⌉.toNat) - 1 <
      (pySorted intLe values).length := by omega
  refine ⟨?_, ?_, ?_, ?_⟩
  · rw [percentile_eq_get values q h _ rfl pf, List.getElem?_eq_getElem pf]
    simp [List.get_eq_getElem]
  · exact ⟨_, percentile_eq_get values q h _ rfl pf,
      hperm.mem_iff.mp (List.get_mem _ _ _)⟩
  · have hk : max 1 (⌈min 1 (max 0 (1 : ℚ)) * (values.length : ℚ)⌉.toNat) - 1 =
        values.length - 1 := by
      have h1 : min 1 (max 0 (1 : ℚ)) = 1 := by norm_num
      rw [h1, one_mul, Int.ceil_natCast, Int.toNat_natCast]
      omega
    have pf1 : values.length - 1 < (pySorted intLe values).length := by omega
    refine ⟨_, percentile_eq_get values 1 h _ hk pf1,
      hperm.mem_iff.mp (List.get_mem _ _ _), ?_⟩
    intro x hx
    exact sorted_le_last hsorted ⟨values.length - 1, pf1⟩ (by simp [hlen]) x
      (hperm.mem_iff.mpr hx)
  · have hk : max 1 (⌈min 1 (max 0 (0 : ℚ)) * (values.length : ℚ)⌉.toNat) - 1 = 0 := by
      norm_num
    have pf0 : 0 < (pySorted intLe values).length := by omega
    refine ⟨_, percentile_eq_get values 0 h _ hk pf0,
      hperm.mem_iff.mp (List.get_mem _ _ _), ?_⟩
    intro x hx
    exact sorted_first_le hsorted ⟨0, pf0⟩ rfl x (hperm.mem_iff.mpr hx)

theorem percentile_nearest_rank_spec_witness :
    (([3, 1, 2] : List Int) ≠ []) ∧
    (percentile_nearest_rank [3, 1, 2] (2 / 3) =
      (pySorted intLe [3, 1, 2])[max 1
        (⌈min 1 (max 0 (2 / 3 : ℚ)) * (([3, 1, 2] : List Int).length : ℚ)⌉.toNat) - 1]? ∧
    (∃ r, percentile_nearest_rank [3, 1, 2] (2 / 3) = some r ∧ r ∈ ([3, 1, 2] : List Int)) ∧
    (∃ m, percentile_nearest_rank [3, 1, 2] 1 = some m ∧ m ∈ ([3, 1, 2] : List Int) ∧
      ∀ x ∈ ([3, 1, 2] : List Int), x ≤ m) ∧
    (∃ m, percentile_nearest_rank [3, 1, 2] 0 = some m ∧ m ∈ ([3, 1, 2] : List Int) ∧
      ∀ x ∈ ([3, 1, 2] : List Int), m ≤ x)) ∧
    percentile_nearest_rank [3, 1, 2] (2 / 3) = some 2 :=
  ⟨by decide, percentile_nearest_rank_spec [3, 1, 2] (2 / 3) (by decide),
   by
    have hk : max 1 (⌈min 1 (max 0 (2 / 3 : ℚ)) *
        (([3, 1, 2] : List Int).length : ℚ)⌉.toNat) - 1 = 1 := by
      have h1 : min 1 (max 0 (2 / 3 : ℚ)) * (([3, 1, 2] : List Int).length : ℚ) = 2 := by
        norm_num [min_def, max_def]
      rw [h1, show (⌈(2 : ℚ)⌉ : ℤ) = 2 from by norm_num]
      decide
    rw [percentile_eq_get [3, 1, 2] (2 / 3) (by decide) 1 hk (by decide)]
    decide⟩

theorem addKeys_append (ks1 : List String) :
    ∀ (hs : List String) (ks2 : List String),
      addKeys hs (ks1 ++ ks2) = addKeys (addKeys hs ks1) ks2 := by
  induction ks1 with
  | nil => intro hs ks2; rfl
  | cons k ks ih =>
      intro hs ks2
      simp only [List.cons_append, addKeys]
      exact ih _ ks2

theorem foldl_addKeys (R : List (List (String × Value))) :
    ∀ H : List String,
      R.foldl (fun hs rec => addKeys hs (rec.map Prod.fst)) H =
        addKeys H ((R.map (fun r => r.map Prod.fst)).flatten) := by
  induction R with
  | nil => intro H; rfl
  | cons rec rest ih =>
      intro H
      simp only [List.foldl_cons, List.map_cons, List.flatten_cons]
      rw [ih, addKeys_append]

theorem dedupSeen_congr {α : Type} [DecidableEq α] :
    ∀ (l s1 s2 : List α), (∀ a, a ∈ s1 ↔ a ∈ s2) → dedupSeen s1 l = dedupSeen s2 l := by
  intro l
  induction l with
  | nil => intro s1 s2 _; rfl
  | cons x xs ih =>
      intro s1 s2 hiff
      by_cases hx : x ∈ s1
      · rw [show dedupSeen s1 (x :: xs) = dedupSeen s1 xs from if_pos hx,
            show dedupSeen s2 (x :: xs) = dedupSeen s2 xs from if_pos ((hiff x).mp hx)]
        exact ih s1 s2 hiff
      · have hx2 : x ∉ s2 := fun hc => hx ((hiff x).mpr hc)
        rw [show dedupSeen s1 (x :: xs) = x :: dedupSeen (x :: s1) xs from if_neg hx,
            show dedupSeen s2 (x :: xs) = x :: dedupSeen (x :: s2) xs from if_neg hx2]
        congr 1
        refine ih (x :: s1) (x :: s2) ?_
        intro a
        simp only [List.mem_cons]
        rw [hiff a]

theorem addKeys_eq_dedupSeen (ks : List String) :
    ∀ hs : List String, addKeys hs ks = hs ++ dedupSeen hs ks := by
  induction ks with
  | nil => intro hs; simp [addKeys, dedupSeen]
  | cons k ks2 ih =>
      intro hs
      by_cases hk : k ∈ hs
      · rw [show addKeys hs (k :: ks2) = addKeys hs ks2 by simp [addKeys, hk],
            show dedupSeen hs (k :: ks2) = dedupSeen hs ks2 from if_pos hk]
        exact ih hs
      · rw [show addKeys hs (k :: ks2) = addKeys (hs ++ [k]) ks2 by simp [addKeys, hk],
            show dedupSeen hs (k :: ks2) = k :: dedupSeen (k :: hs) ks2 from if_neg hk]
        rw [ih (hs ++ [k])]
        rw [List.append_assoc, List.singleton_append]
        congr 2
        refine dedupSeen_congr ks2 (hs ++ [k]) (k :: hs) ?_
        intro a
        simp only [List.mem_append, List.mem_singleton, List.mem_cons]
        tauto

theorem dedupSeen_eq_filter {α : Type} [DecidableEq α] :
    ∀ (l s t : List α), dedupSeen (s ++ t) l = dedupSeen s (l.filter (fun a => a ∉ t)) := by
  intro l
  induction l with
  | nil => intro s t; rfl
  | cons x xs ih =>
      intro s t
      by_cases hxt : x ∈ t
      · have hxst : x ∈ s ++ t := List.mem_append.mpr (Or.inr hxt)
        rw [show dedupSeen (s ++ t) (x :: xs) = dedupSeen (s ++ t) xs from if_pos hxst]
        rw [show (x :: xs).filter (fun a => a ∉ t) = xs.filter (fun a => a ∉ t) by
          simp [List.filter_cons, hxt]]
        exact ih s t
      · rw [show (x :: xs).filter (fun a => a ∉ t) =
            x :: xs.filter (fun a => a ∉ t) by simp [List.filter_cons, hxt]]
        by_cases hxs : x ∈ s
        · have hxst : x ∈ s ++ t := List.mem_append.mpr (Or.inl hxs)
          rw [show dedupSeen (s ++ t) (x :: xs) = dedupSeen (s ++ t) xs from if_pos hxst]
          rw [show dedupSeen s (x :: xs.filter (fun a => a ∉ t)) =
              dedupSeen s (xs.filter (fun a => a ∉ t)) from if_pos hxs]
          exact ih s t
        · have hxst : x ∉ s ++ t := by
            intro hc
            rcases List.mem_append.mp hc with h1 | h2
            · exact hxs h1
            · exact hxt h2
          rw [show dedupSeen (s ++ t) (x :: xs) =
              x :: dedupSeen (x :: (s ++ t)) xs from if_neg hxst]
          rw [show dedupSeen s (x :: xs.filter (fun a => a ∉ t)) =
              x :: dedupSeen (x :: s) (xs.filter (fun a => a ∉ t)) from if_neg hxs]
          congr 1
          exact ih (x :: s) t

theorem addKeys_eq_dedupFirst (ks : List String) (hs : List String) :
    addKeys hs ks = hs ++ dedupFirst (ks.filter (fun k => k ∉ hs)) := by
  rw [addKeys_eq_dedupSeen]
  congr 1
  have := dedupSeen_eq_filter ks [] hs
  simpa [dedupFirst] using this

theorem mem_addKeys (a : String) (ks hs : List String) :
    a ∈ addKeys hs ks ↔ a ∈ hs ∨ a ∈ ks := by
  rw [addKeys_eq_dedupSeen]
  rw [List.mem_append, mem_dedupSeen]
  constructor
  · rintro (h | ⟨h1, _⟩)
    · exact Or.inl h
    · exact Or.inr h1
  · rintro (h | h)
    · exact Or.inl h
    · by_cases hh : a ∈ hs
      · exact Or.inl hh
      · exact Or.inr ⟨h, hh⟩

theorem buildRowStep_headers_const (am : Bool) :
    ∀ (rec : List (String × Value)) (hs : List String) (row : List (String × String)),
      (am = true → ∀ kv ∈ rec, kv.1 ∈ hs) →
      (rec.foldl (buildRowStep am) (hs, row)).1 = hs := by
  intro rec
  induction rec with
  | nil => intro hs row _; rfl
  | cons kv rest ih =>
      intro hs row hmem
      simp only [List.foldl_cons]
      have h2 : (buildRowStep am (hs, row) kv).1 = hs := by
        unfold buildRowStep
        by_cases hin : kv.1 ∈ hs
        · simp [hin]
        · cases am with
          | true => exact absurd (hmem rfl kv (List.mem_cons_self kv rest)) hin
          | false => simp [hin]
      have hpair : buildRowStep am (hs, row) kv = (hs, (buildRowStep am (hs, row) kv).2) :=
        Prod.ext h2 rfl
      rw [hpair]
      exact ih hs _ (fun ham kv2 hkv2 => hmem ham kv2 (List.mem_cons_of_mem kv hkv2))

theorem buildRows_headers_const (am : Bool) :
    ∀ (records : List (List (String × Value))) (hs : List String)
      (acc : List (List (String × String))),
      (am = true → ∀ rec ∈ records, ∀ kv ∈ rec, kv.1 ∈ hs) →
      (records.foldl (fun st rec =>
        let start := (st.1, initRow st.1)
        let fin := rec.foldl (buildRowStep am) start
        (fin.1, st.2 ++ [fin.2])) (hs, acc)).1 = hs := by
  intro records
  induction records with
  | nil => intro hs acc _; rfl
  | cons rec rest ih =>
      intro hs acc hmem
      simp only [List.foldl_cons]
      have hrow : (rec.foldl (buildRowStep am) (hs, initRow hs)).1 = hs :=
        buildRowStep_headers_const am rec hs (initRow hs)
          (fun ham => hmem ham rec (List.mem_cons_self rec rest))
      rw [hrow]
      exact ih hs _ (fun ham rec2 hrec2 => hmem ham rec2 (List.mem_cons_of_mem rec hrec2))

theorem compute_headers_eq (H : List String) (R : List (List (String × Value))) :
    _compute_headers H R true = addKeys H ((R.map (fun r => r.map Prod.fst)).flatten) := by
  unfold _compute_headers
  rw [if_pos rfl]
  exact foldl_addKeys R H

theorem append_headers_true (H : List String) (rows : List (List (String × String)))
    (R : List (List (String × Value))) (keep : Bool) :
    (append_records_to_csv H rows R true keep).headers =
      addKeys H ((R.map (fun r => r.map Prod.fst)).flatten) := by
  have hcomp := compute_headers_eq H R
  have h1 : (if _compute_headers H R true = [] then inferHeaders R
      else _compute_headers H R true) =
      addKeys H ((R.map (fun r => r.map Prod.fst)).flatten) := by
    by_cases h0 : _compute_headers H R true = []
    · rw [if_pos h0]
      have hH : H = [] := by
        rw [hcomp, addKeys_eq_dedupSeen] at h0
        exact (List.append_eq_nil.mp h0).1
      subst hH
      unfold inferHeaders
      exact foldl_addKeys R []
    · rw [if_neg h0, hcomp]
  have hmem : ∀ rec ∈ R, ∀ kv ∈ rec,
      kv.1 ∈ addKeys H ((R.map (fun r => r.map Prod.fst)).flatten) := by
    intro rec hrec kv hkv
    rw [mem_addKeys]
    refine Or.inr (List.mem_flatten.mpr ⟨rec.map Prod.fst, ?_, ?_⟩)
    · exact List.mem_map.mpr ⟨rec, hrec, rfl⟩
    · exact List.mem_map.mpr ⟨kv, hkv, rfl⟩
  show (R.foldl (fun st rec =>
      let start := (st.1, initRow st.1)
      let fin := rec.foldl (buildRowStep true) start
      (fin.1, st.2 ++ [fin.2]))
    (if _compute_headers H R true = [] then inferHeaders R
     else _compute_headers H R true, [])).1 = _
  rw [h1]
  exact buildRows_headers_const true R _ [] (fun _ => hmem)

theorem append_headers_false (rows : List (List (String × String)))
    (R : List (List (String × Value))) (keep : Bool) :
    (append_records_to_csv [] rows R false keep).headers =
      dedupFirst ((R.map (fun r => r.map Prod.fst)).flatten) := by
  have h1 : (if _compute_headers [] R false = [] then inferHeaders R
      else _compute_headers [] R false) =
      dedupFirst ((R.map (fun r => r.map Prod.fst)).flatten) := by
    rw [show _compute_headers [] R false = [] from rfl, if_pos rfl]
    unfold inferHeaders
    rw [foldl_addKeys R [], addKeys_eq_dedupSeen]
    simp [dedupFirst]
  show (R.foldl (fun st rec =>
      let start := (st.1, initRow st.1)
      let fin := rec.foldl (buildRowStep false) start
      (fin.1, st.2 ++ [fin.2]))
    (if _compute_headers [] R false = [] then inferHeaders R
     else _compute_headers [] R false, [])).1 = _
  rw [h1]
  exact buildRows_headers_const false R _ [] (fun hc => absurd hc (by simp))

/-- C4: the CSV writer's computed header list is the existing headers in
their original order followed by exactly the record keys not already
present, in first-seen order; hence a second run taking the first run's
output as input (same records, add-missing-columns and keep-existing-rows
enabled) drops no column and reorders none — its headers are unchanged. -/
theorem append_records_headers_spec (H : List String)
    (rows rows2 : List (List (String × String)))
    (R : List (List (String × Value))) (keep keep2 : Bool) :
    (append_records_to_csv H rows R true keep).headers = H ++ specNewColumns H R ∧
    (∀ k ∈ specNewColumns H R, k ∉ H ∧
      k ∈ (R.map (fun r => r.map Prod.fst)).flatten) ∧
    (append_records_to_csv ((append_records_to_csv H rows R true keep).headers) rows2 R
        true keep2).headers = (append_records_to_csv H rows R true keep).headers := by
  have hfirst : (append_records_to_csv H rows R true keep).headers =
      H ++ specNewColumns H R := by
    rw [append_headers_true, addKeys_eq_dedupFirst]
    rfl
  refine ⟨hfirst, ?_, ?_⟩
  · intro k hk
    unfold specNewColumns at hk
    rw [mem_dedupFirst, List.mem_filter] at hk
    refine ⟨?_, hk.1⟩
    intro hc
    have := hk.2
    simp only [decide_eq_true_eq] at this
    exact this hc
  · rw [append_headers_true ((append_records_to_csv H rows R true keep).headers) rows2 R keep2]
    rw [hfirst]
    rw [addKeys_eq_dedupFirst]
    have hsub : ((R.map (fun r => r.map Prod.fst)).flatten).filter
        (fun k => k ∉ H ++ specNewColumns H R) = [] := by
      rw [List.filter_eq_nil]
      intro k hk
      simp only [decide_eq_true_eq, Decidable.not_not]
      rw [List.mem_append]
      by_cases hkH : k ∈ H
      · exact Or.inl hkH
      · refine Or.inr ?_
        unfold specNewColumns
        rw [mem_dedupFirst, List.mem_filter]
        exact ⟨hk, by simpa using hkH⟩
    rw [hsub]
    simp [dedupFirst, dedupSeen]

/-- C10: with no existing headers (missing or empty input CSV) and
add-missing-columns disabled, the written header row is still inferred from
the record keys in first-seen order, so any record list containing at least
one key yields a non-empty header row. -/
theorem append_records_infer_spec (rows : List (List (String × String)))
    (R : List (List (String × Value))) (keep : Bool) :
    (append_records_to_csv [] rows R false keep).headers =
      dedupFirst ((R.map (fun r => r.map Prod.fst)).flatten) ∧
    ((∃ rec ∈ R, rec ≠ []) → (append_records_to_csv [] rows R false keep).headers ≠ []) := by
  refine ⟨append_headers_false rows R keep, ?_⟩
  rintro ⟨rec, hrec, hne⟩
  rw [append_headers_false rows R keep]
  obtain ⟨kv, hkv⟩ := List.exists_mem_of_ne_nil rec hne
  have hk : kv.1 ∈ (R.map (fun r => r.map Prod.fst)).flatten :=
    List.mem_flatten.mpr ⟨rec.map Prod.fst, List.mem_map.mpr ⟨rec, hrec, rfl⟩,
      List.mem_map.mpr ⟨kv, hkv, rfl⟩⟩
  exact List.ne_nil_of_mem ((mem_dedupFirst kv.1 _).mpr hk)

theorem append_records_infer_spec_witness :
    (∃ rec ∈ [[("title", Value.str "x")], [("n_odd", Value.str "y")]], rec ≠ []) ∧
    ((append_records_to_csv [] [] [[("title", Value.str "x")], [("n_odd", Value.str "y")]]
        false true).headers =
      dedupFirst ((([[("title", Value.str "x")], [("n_odd", Value.str "y")]].map
        (fun r => r.map Prod.fst))).flatten) ∧
    ((∃ rec ∈ [[("title", Value.str "x")], [("n_odd", Value.str "y")]], rec ≠ []) →
      (append_records_to_csv [] [] [[("title", Value.str "x")], [("n_odd", Value.str "y")]]
        false true).headers ≠ [])) ∧
    (append_records_to_csv [] [] [[("title", Value.str "x")], [("n_odd", Value.str "y")]]
      false true).headers = ["title", "n_odd"] :=
  ⟨by decide,
   append_records_infer_spec [] [[("title", Value.str "x")], [("n_odd", Value.str "y")]] true,
   by decide⟩

theorem dictGet_dictSet_ne :
    ∀ (d : List (String × Value)) (k : String) (v : Value) (k2 : String),
      k2 ≠ k → dictGet (dictSet d k v) k2 = dictGet d k2 := by
  intro d
  induction d with
  | nil =>
      intro k v k2 h
      simp [dictGet, dictSet, List.find?_cons, Ne.symm h]
  | cons p rest ih =>
      intro k v k2 h
      obtain ⟨k1, v1⟩ := p
      by_cases h1 : k1 = k
      · subst h1
        rw [show dictSet ((k1, v1) :: rest) k1 v = (k1, v) :: rest by simp [dictSet]]
        simp [dictGet, List.find?_cons, Ne.symm h]
      · rw [show dictSet ((k1, v1) :: rest) k v = (k1, v1) :: dictSet rest k v by
          simp [dictSet, h1]]
        by_cases h2 : k1 = k2
        · subst h2
          simp [dictGet, List.find?_cons]
        · simp only [dictGet, List.find?_cons]
          rw [show decide (k1 = k2) = false from decide_eq_false h2]
          exact ih k v k2 h

theorem mem_dictKeys_dictSet :
    ∀ (d : List (String × Value)) (k : String) (v : Value) (a : String),
      a ∈ dictKeys (dictSet d k v) ↔ a = k ∨ a ∈ dictKeys d := by
  intro d
  induction d with
  | nil =>
      intro k v a
      simp [dictKeys, dictSet]
  | cons p rest ih =>
      intro k v a
      obtain ⟨k1, v1⟩ := p
      by_cases h1 : k1 = k
      · subst h1
        rw [show dictSet ((k1, v1) :: rest) k1 v = (k1, v) :: rest by simp [dictSet]]
        simp [dictKeys]
      · rw [show dictSet ((k1, v1) :: rest) k v = (k1, v1) :: dictSet rest k v by
          simp [dictSet, h1]]
        simp only [dictKeys, List.map_cons, List.mem_cons] at ih ⊢
        rw [ih k v a]
        tauto

theorem dictGet_addPair_ne (c : Bool) (d : List (String × Value)) (k1 : String)
    (v1 : Value) (k2 : String) (v2 : Value) (k : String)
    (h1 : k ≠ k1) (h2 : k ≠ k2) :
    dictGet (addPair c d k1 v1 k2 v2) k = dictGet d k := by
  unfold addPair
  by_cases hc : c = true
  · rw [if_pos hc, dictGet_dictSet_ne _ _ _ _ h2, dictGet_dictSet_ne _ _ _ _ h1]
  · rw [if_neg hc]

theorem mem_dictKeys_addPair (c : Bool) (d : List (String × Value)) (k1 : String)
    (v1 : Value) (k2 : String) (v2 : Value) (a : String) :
    a ∈ dictKeys (addPair c d k1 v1 k2 v2) ↔
      (c = true ∧ (a = k1 ∨ a = k2)) ∨ a ∈ dictKeys d := by
  unfold addPair
  by_cases hc : c = true
  · rw [if_pos hc, mem_dictKeys_dictSet, mem_dictKeys_dictSet]
    simp [hc]
    tauto
  · rw [if_neg hc]
    simp [hc]

theorem dictGet_augmentStatic_ne (size_bytes : Option Nat)
    (condensed : List (String × Value)) (hier : Value) (mb rd : Nat) (k : String)
    (h1 : k ≠ "hierarchy") (h2 : k ≠ "number") (h3 : k ≠ "extent_type")
    (h4 : k ≠ "restrictions_flag") (h5 : k ≠ "processing_note") (h6 : k ≠ "portion")
    (h7 : k ≠ "type_2") (h8 : k ≠ "p_acqinfo") (h9 : k ≠ "n_acqinfo") :
    dictGet (augmentStatic size_bytes condensed hier mb rd) k = dictGet condensed k := by
  unfold augmentStatic
  cases size_bytes <;>
    rw [dictGet_dictSet_ne _ _ _ _ h9, dictGet_dictSet_ne _ _ _ _ h8,
        dictGet_dictSet_ne _ _ _ _ h7, dictGet_dictSet_ne _ _ _ _ h6,
        dictGet_dictSet_ne _ _ _ _ h5, dictGet_dictSet_ne _ _ _ _ h4,
        dictGet_dictSet_ne _ _ _ _ h3, dictGet_dictSet_ne _ _ _ _ h2,
        dictGet_dictSet_ne _ _ _ _ h1]

theorem mem_dictKeys_augmentStatic (size_bytes : Option Nat)
    (condensed : List (String × Value)) (hier : Value) (mb rd : Nat) (a : String) :
    a ∈ dictKeys (augmentStatic size_bytes condensed hier mb rd) ↔
      a ∈ ["hierarchy", "number", "extent_type", "restrictions_flag", "processing_note",
           "portion", "type_2", "p_acqinfo", "n_acqinfo"] ∨ a ∈ dictKeys condensed := by
  unfold augmentStatic
  cases size_bytes <;>
    simp only [mem_dictKeys_dictSet, List.mem_cons, List.mem_singleton,
      List.not_mem_nil] <;> tauto

theorem mem_keys_augment_descriptors (sb : Option Nat)
    (condensed : List (String × Value)) (hier : Value) (mb rd : Nat) (a : String)
    (hstat : a ∉ (["hierarchy", "number", "extent_type", "restrictions_flag",
      "processing_note", "portion", "type_2", "p_acqinfo", "n_acqinfo"] : List String))
    (hcond : a ∉ dictKeys condensed) :
    a ∈ dictKeys (augment_condensed_metadata sb condensed hier mb rd) ↔
      (_non_null_opt (dictGet condensed "begin") = true ∧
        (a = "dates_label" ∨ a = "date_type")) ∨
      (_non_null_opt (dictGet condensed "people_agent_header_1") = true ∧
        (a = "people_agent_role_1" ∨ a = "people_agent_relator_1")) ∨
      (_non_null_opt (dictGet condensed "people_agent_header_2") = true ∧
        (a = "people_agent_role_2" ∨ a = "people_agent_relator_2")) ∨
      (_non_null_opt (dictGet condensed "n_odd") = true ∧
        (a = "p_odd" ∨ a = "l_odd")) ∨
      (_non_null_opt (dictGet condensed "subject_1_term") = true ∧
        (a = "subject_1_type" ∨ a = "subject_1_source")) := by
  have hb : dictGet (augmentStatic sb condensed hier mb rd) "begin" =
      dictGet condensed "begin" :=
    dictGet_augmentStatic_ne sb condensed hier mb rd "begin" (by decide) (by decide)
      (by decide) (by decide) (by decide) (by decide) (by decide) (by decide) (by decide)
  have hp1 : dictGet (addPair (_non_null_opt (dictGet condensed "begin"))
      (augmentStatic sb condensed hier mb rd) "dates_label" (Value.str "creation")
      "date_type" (Value.str "single")) "people_agent_header_1" =
      dictGet condensed "people_agent_header_1" := by
    rw [dictGet_addPair_ne _ _ _ _ _ _ _ (by decide) (by decide)]
    exact dictGet_augmentStatic_ne sb condensed hier mb rd _ (by decide) (by decide)
      (by decide) (by decide) (by decide) (by decide) (by decide) (by decide) (by decide)
  simp only [augment_condensed_metadata]
  rw [hb, hp1]
  have hp2 : dictGet (addPair (_non_null_opt (dictGet condensed "people_agent_header_1"))
      (addPair (_non_null_opt (dictGet condensed "begin"))
        (augmentStatic sb condensed hier mb rd) "dates_label" (Value.str "creation")
        "date_type" (Value.str "single"))
      "people_agent_role_1" (Value.str "creator") "people_agent_relator_1"
      (Value.str "photographer")) "people_agent_header_2" =
      dictGet condensed "people_agent_header_2" := by
    rw [dictGet_addPair_ne _ _ _ _ _ _ _ (by decide) (by decide),
        dictGet_addPair_ne _ _ _ _ _ _ _ (by decide) (by decide)]
    exact dictGet_augmentStatic_ne sb condensed hier mb rd _ (by decide) (by decide)
      (by decide) (by decide) (by decide) (by decide) (by decide) (by decide) (by decide)
  rw [hp2]
  have hp3 : dictGet (addPair (_non_null_opt (dictGet condensed "people_agent_header_2"))
      (addPair (_non_null_opt (dictGet condensed "people_agent_header_1"))
        (addPair (_non_null_opt (dictGet condensed "begin"))
          (augmentStatic sb condensed hier mb rd) "dates_label" (Value.str "creation")
          "date_type" (Value.str "single"))
        "people_agent_role_1" (Value.str "creator") "people_agent_relator_1"
        (Value.str "photographer"))
      "people_agent_role_2" (Value.str "subject") "people_agent_relator_2"
      (Value.str "associated name")) "n_odd" = dictGet condensed "n_odd" := by
    rw [dictGet_addPair_ne _ _ _ _ _ _ _ (by decide) (by decide),
        dictGet_addPair_ne _ _ _ _ _ _ _ (by decide) (by decide),
        dictGet_addPair_ne _ _ _ _ _ _ _ (by decide) (by decide)]
    exact dictGet_augmentStatic_ne sb condensed hier mb rd _ (by decide) (by decide)
      (by decide) (by decide) (by decide) (by decide) (by decide) (by decide) (by decide)
  rw [hp3]
  have hp4 : dictGet (addPair (_non_null_opt (dictGet condensed "n_odd"))
      (addPair (_non_null_opt (dictGet condensed "people_agent_header_2"))
        (addPair (_non_null_opt (dictGet condensed "people_agent_header_1"))
          (addPair (_non_null_opt (dictGet condensed "begin"))
            (augmentStatic sb condensed hier mb rd) "dates_label" (Value.str "creation")
            "date_type" (Value.str "single"))
          "people_agent_role_1" (Value.str "creator") "people_agent_relator_1"
          (Value.str "photographer"))
        "people_agent_role_2" (Value.str "subject") "people_agent_relator_2"
        (Value.str "associated name"))
      "p_odd" (Value.str "Yes") "l_odd" (Value.str "location")) "subject_1_term" =
      dictGet condensed "subject_1_term" := by
    rw [dictGet_addPair_ne _ _ _ _ _ _ _ (by decide) (by decide),
        dictGet_addPair_ne _ _ _ _ _ _ _ (by decide) (by decide),
        dictGet_addPair_ne _ _ _ _ _ _ _ (by decide) (by decide),
        dictGet_addPair_ne _ _ _ _ _ _ _ (by decide) (by decide)]
    exact dictGet_augmentStatic_ne sb condensed hier mb rd _ (by decide) (by decide)
      (by decide) (by decide) (by decide) (by decide) (by decide) (by decide) (by decide)
  rw [hp4]
  rw [mem_dictKeys_addPair, mem_dictKeys_addPair, mem_dictKeys_addPair,
      mem_dictKeys_addPair, mem_dictKeys_addPair, mem_dictKeys_augmentStatic]
  have hstat2 : ¬(a ∈ (["hierarchy", "number", "extent_type", "restrictions_flag",
      "processing_note", "portion", "type_2", "p_acqinfo", "n_acqinfo"] : List String) ∨
      a ∈ dictKeys condensed) := by
    rintro (h | h)
    · exact hstat h
    · exact hcond h
  tauto

/-- C8: `augment_condensed_metadata` adds each paired descriptor field
group (dates_label/date_type, people_agent_role_1/people_agent_relator_1,
people_agent_role_2/people_agent_relator_2, p_odd/l_odd,
subject_1_type/subject_1_source) if and only if the corresponding condensed
field (begin, people_agent_header_1, people_agent_header_2, n_odd,
subject_1_term) is non-null in the sense of `_non_null`. -/
theorem augment_conditional_pairs_spec (sb : Option Nat)
    (condensed : List (String × Value)) (hier : Value) (mb rd : Nat)
    (hdisj : ∀ k ∈ (["dates_label", "date_type", "people_agent_role_1",
      "people_agent_relator_1", "people_agent_role_2", "people_agent_relator_2",
      "p_odd", "l_odd", "subject_1_type", "subject_1_source"] : List String),
      k ∉ dictKeys condensed) :
    (("dates_label" ∈ dictKeys (augment_condensed_metadata sb condensed hier mb rd) ∧
      "date_type" ∈ dictKeys (augment_condensed_metadata sb condensed hier mb rd)) ↔
      _non_null_opt (dictGet condensed "begin") = true) ∧
    (("people_agent_role_1" ∈ dictKeys (augment_condensed_metadata sb condensed hier mb rd) ∧
      "people_agent_relator_1" ∈ dictKeys (augment_condensed_metadata sb condensed hier mb rd)) ↔
      _non_null_opt (dictGet condensed "people_agent_header_1") = true) ∧
    (("people_agent_role_2" ∈ dictKeys (augment_condensed_metadata sb condensed hier mb rd) ∧
      "people_agent_relator_2" ∈ dictKeys (augment_condensed_metadata sb condensed hier mb rd)) ↔
      _non_null_opt (dictGet condensed "people_agent_header_2") = true) ∧
    (("p_odd" ∈ dictKeys (augment_condensed_metadata sb condensed hier mb rd) ∧
      "l_odd" ∈ dictKeys (augment_condensed_metadata sb condensed hier mb rd)) ↔
      _non_null_opt (dictGet condensed "n_odd") = true) ∧
    (("subject_1_type" ∈ dictKeys (augment_condensed_metadata sb condensed hier mb rd) ∧
      "subject_1_source" ∈ dictKeys (augment_condensed_metadata sb condensed hier mb rd)) ↔
      _non_null_opt (dictGet condensed "subject_1_term") = true) := by
  refine ⟨?_, ?_, ?_, ?_, ?_⟩
  · rw [mem_keys_augment_descriptors sb condensed hier mb rd "dates_label" (by decide)
        (hdisj _ (by decide)),
      mem_keys_augment_descriptors sb condensed hier mb rd "date_type" (by decide)
        (hdisj _ (by decide))]
    simp
  · rw [mem_keys_augment_descriptors sb condensed hier mb rd "people_agent_role_1" (by decide)
        (hdisj _ (by decide)),
      mem_keys_augment_descriptors sb condensed hier mb rd "people_agent_relator_1" (by decide)
        (hdisj _ (by decide))]
    simp
  · rw [mem_keys_augment_descriptors sb condensed hier mb rd "people_agent_role_2" (by decide)
        (hdisj _ (by decide)),
      mem_keys_augment_descriptors sb condensed hier mb rd "people_agent_relator_2" (by decide)
        (hdisj _ (by decide))]
    simp
  · rw [mem_keys_augment_descriptors sb condensed hier mb rd "p_odd" (by decide)
        (hdisj _ (by decide)),
      mem_keys_augment_descriptors sb condensed hier mb rd "l_odd" (by decide)
        (hdisj _ (by decide))]
    simp
  · rw [mem_keys_augment_descriptors sb condensed hier mb rd "subject_1_type" (by decide)
        (hdisj _ (by decide)),
      mem_keys_augment_descriptors sb condensed hier mb rd "subject_1_source" (by decide)
        (hdisj _ (by decide))]
    simp

theorem augment_conditional_pairs_spec_witness :
    (∀ k ∈ (["dates_label", "date_type", "people_agent_role_1",
      "people_agent_relator_1", "people_agent_role_2", "people_agent_relator_2",
      "p_odd", "l_odd", "subject_1_type", "subject_1_source"] : List String),
      k ∉ dictKeys [("title", Value.none), ("begin", Value.str "2021:10:12 18:03:11"),
        ("people_agent_header_1", Value.str "  "),
        ("people_agent_header_2", Value.list [Value.str "A"]),
        ("subject_1_term", Value.none), ("n_odd", Value.str "Nashville"),
        ("n_abstract", Value.none)]) ∧
    (("dates_label" ∈ dictKeys (augment_condensed_metadata Option.none
        [("title", Value.none), ("begin", Value.str "2021:10:12 18:03:11"),
         ("people_agent_header_1", Value.str "  "),
         ("people_agent_header_2", Value.list [Value.str "A"]),
         ("subject_1_term", Value.none), ("n_odd", Value.str "Nashville"),
         ("n_abstract", Value.none)] (Value.int 2) 1024 3) ∧
      "date_type" ∈ dictKeys (augment_condensed_metadata Option.none
        [("title", Value.none), ("begin", Value.str "2021:10:12 18:03:11"),
         ("people_agent_header_1", Value.str "  "),
         ("people_agent_header_2", Value.list [Value.str "A"]),
         ("subject_1_term", Value.none), ("n_odd", Value.str "Nashville"),
         ("n_abstract", Value.none)] (Value.int 2) 1024 3)) ↔
      _non_null_opt (dictGet [("title", Value.none),
        ("begin", Value.str "2021:10:12 18:03:11"),
        ("people_agent_header_1", Value.str "  "),
        ("people_agent_header_2", Value.list [Value.str "A"]),
        ("subject_1_term", Value.none), ("n_odd", Value.str "Nashville"),
        ("n_abstract", Value.none)] "begin") = true) ∧
    "dates_label" ∈ dictKeys (augment_condensed_metadata Option.none
      [("title", Value.none), ("begin", Value.str "2021:10:12 18:03:11"),
       ("people_agent_header_1", Value.str "  "),
       ("people_agent_header_2", Value.list [Value.str "A"]),
       ("subject_1_term", Value.none), ("n_odd", Value.str "Nashville"),
       ("n_abstract", Value.none)] (Value.int 2) 1024 3) ∧
    "people_agent_role_1" ∉ dictKeys (augment_condensed_metadata Option.none
      [("title", Value.none), ("begin", Value.str "2021:10:12 18:03:11"),
       ("people_agent_header_1", Value.str "  "),
       ("people_agent_header_2", Value.list [Value.str "A"]),
       ("subject_1_term", Value.none), ("n_odd", Value.str "Nashville"),
       ("n_abstract", Value.none)] (Value.int 2) 1024 3) :=
  ⟨by decide,
   (augment_conditional_pairs_spec Option.none
     [("title", Value.none), ("begin", Value.str "2021:10:12 18:03:11"),
      ("people_agent_header_1", Value.str "  "),
      ("people_agent_header_2", Value.list [Value.str "A"]),
      ("subject_1_term", Value.none), ("n_odd", Value.str "Nashville"),
      ("n_abstract", Value.none)] (Value.int 2) 1024 3 (by decide)).1,
   by decide, by decide⟩

/-- C5: evaluation of `condense_metadata` at the failing inputs.  With no
candidate source key present every condensed field is the absent value and
no error is raised; but a present title that is the empty string or a
whitespace-only string makes the trailing-space loop index an empty string
and raise `IndexError`, contradicting the no-error claim. -/
theorem condense_metadata_empty_title_error :
    condense_metadata [] = Except.ok
      [("title", Value.none), ("begin", Value.none), ("people_agent_header_1", Value.none),
       ("people_agent_header_2", Value.none), ("subject_1_term", Value.none),
       ("n_odd", Value.none), ("n_abstract", Value.none)] ∧
    condense_metadata [("Description", Value.str "")] =
      Except.error "IndexError: string index out of range" ∧
    condense_metadata [("Description", Value.str " ")] =
      Except.error "IndexError: string index out of range" ∧
    condense_metadata [("XMP-dc:Description", Value.str "   ")] =
      Except.error "IndexError: string index out of range" :=
  ⟨by decide, by decide, by decide, by decide⟩

theorem concatPeople_append :
    ∀ (names : List String) (acc : String),
      concatPeople acc (names.map Value.str) =
        Except.ok (names.foldl (fun a n => a ++ " " ++ n) acc) := by
  intro names
  induction names with
  | nil => intro acc; rfl
  | cons n rest ih =>
      intro acc
      simp only [List.map_cons, concatPeople, List.foldl_cons]
      exact ih (acc ++ " " ++ n)

theorem foldl_join_append :
    ∀ (l : List String) (a b : String),
      l.foldl (fun x n => x ++ " " ++ n) (a ++ b) =
        a ++ l.foldl (fun x n => x ++ " " ++ n) b := by
  intro l
  induction l with
  | nil => intro a b; rfl
  | cons n rest ih =>
      intro a b
      simp only [List.foldl_cons]
      have h1 : a ++ b ++ " " ++ n = a ++ (b ++ " " ++ n) := by
        simp [String.append_assoc]
      rw [h1]
      exact ih a (b ++ " " ++ n)

theorem spaceJoined_foldl :
    ∀ (rest : List String) (n0 : String),
      spaceJoined (n0 :: rest) = rest.foldl (fun a n => a ++ " " ++ n) n0 := by
  intro rest
  induction rest with
  | nil => intro n0; rfl
  | cons n1 rest2 ih =>
      intro n0
      rw [show spaceJoined (n0 :: n1 :: rest2) = n0 ++ " " ++ spaceJoined (n1 :: rest2)
        from rfl]
      rw [ih n1]
      simp only [List.foldl_cons]
      rw [foldl_join_append rest2 (n0 ++ " ") n1]

theorem processPeople_join (names : List String) (h : 2 ≤ names.length) :
    processPeople (Value.list (names.map Value.str)) =
      Except.ok (Value.str (spaceJoined names)) := by
  obtain ⟨n0, n1, rest, rfl⟩ : ∃ n0 n1 rest, names = n0 :: n1 :: rest := by
    cases names with
    | nil => simp at h
    | cons a t =>
        cases t with
        | nil => simp at h
        | cons b r => exact ⟨a, b, r, rfl⟩
  show (concatPeople n0 ((n1 :: rest).map Value.str)).map Value.str = _
  rw [concatPeople_append, spaceJoined_foldl]
  rfl

theorem dictGet_augment_header2 (sb : Option Nat) (d : List (String × Value))
    (hier : Value) (mb rd : Nat) :
    dictGet (augment_condensed_metadata sb d hier mb rd) "people_agent_header_2" =
      dictGet d "people_agent_header_2" := by
  simp only [augment_condensed_metadata]
  rw [dictGet_addPair_ne _ _ _ _ _ _ _ (by decide) (by decide),
      dictGet_addPair_ne _ _ _ _ _ _ _ (by decide) (by decide),
      dictGet_addPair_ne _ _ _ _ _ _ _ (by decide) (by decide),
      dictGet_addPair_ne _ _ _ _ _ _ _ (by decide) (by decide),
      dictGet_addPair_ne _ _ _ _ _ _ _ (by decide) (by decide)]
  exact dictGet_augmentStatic_ne sb d hier mb rd _ (by decide) (by decide) (by decide)
    (by decide) (by decide) (by decide) (by decide) (by decide) (by decide)

theorem condense_ok_shape (meta c : List (String × Value))
    (hok : condense_metadata meta = Except.ok c) :
    ∃ t pa2 nodd,
      processTitle (_first_present meta ["XMP-dc:Description", "IFD0:ImageDescription",
        "Description", "ImageDescription"]) = Except.ok t ∧
      processPeople (_first_present meta ["XMP-iptcExt:PersonInImage"]) = Except.ok pa2 ∧
      processLocation (_first_present meta ["XMP-iptcCore:Location"]) = Except.ok nodd ∧
      c = [("title", t),
           ("begin", _first_present meta ["EXIF:CreateDate", "CreateDate", "XMP-xmp:CreateDate"]),
           ("people_agent_header_1",
             _first_present meta ["IPTC:By-line", "IFD0:Artist", "Creator", "Artist"]),
           ("people_agent_header_2", pa2),
           ("subject_1_term", _extract_nested meta ["XMP-plus:ImageSupplier"] "ImageSupplierName"),
           ("n_odd", nodd),
           ("n_abstract", _first_present meta ["XMP-photoshop:Headline"])] := by
  unfold condense_metadata at hok
  cases ht : processTitle (_first_present meta ["XMP-dc:Description", "IFD0:ImageDescription",
      "Description", "ImageDescription"]) with
  | error e => rw [ht] at hok; exact Except.noConfusion hok
  | ok t =>
      rw [ht] at hok
      cases hp : processPeople (_first_present meta ["XMP-iptcExt:PersonInImage"]) with
      | error e => rw [hp] at hok; exact Except.noConfusion hok
      | ok pa2 =>
          rw [hp] at hok
          cases hl : processLocation (_first_present meta ["XMP-iptcCore:Location"]) with
          | error e => rw [hl] at hok; exact Except.noConfusion hok
          | ok nodd =>
              rw [hl] at hok
              exact ⟨t, pa2, nodd, rfl, rfl, rfl, (Except.ok.inj hok).symm⟩

/-- C7 (amended): the space-joining of a people list happens during
condensation, not augmentation — condensing a metadata mapping whose
person-in-image field holds a list of two or more name strings yields
`people_agent_header_2` equal to the single space-separated string of the
names, and augmenting that condensed record leaves the field unchanged. -/
theorem condense_people_join_spec (meta : List (String × Value)) (names : List String)
    (c : List (String × Value)) (sb : Option Nat) (hier : Value) (mb rd : Nat)
    (hlen : 2 ≤ names.length)
    (hmeta : _first_present meta ["XMP-iptcExt:PersonInImage"] =
      Value.list (names.map Value.str))
    (hok : condense_metadata meta = Except.ok c) :
    dictGet c "people_agent_header_2" = some (Value.str (spaceJoined names)) ∧
    dictGet (augment_condensed_metadata sb c hier mb rd) "people_agent_header_2" =
      some (Value.str (spaceJoined names)) := by
  obtain ⟨t, pa2, nodd, ht, hp, hl, hc⟩ := condense_ok_shape meta c hok
  rw [hmeta, processPeople_join names hlen, Except.ok.injEq] at hp
  subst hp
  subst hc
  have hget : dictGet [("title", t),
      ("begin", _first_present meta ["EXIF:CreateDate", "CreateDate", "XMP-xmp:CreateDate"]),
      ("people_agent_header_1",
        _first_present meta ["IPTC:By-line", "IFD0:Artist", "Creator", "Artist"]),
      ("people_agent_header_2", Value.str (spaceJoined names)),
      ("subject_1_term", _extract_nested meta ["XMP-plus:ImageSupplier"] "ImageSupplierName"),
      ("n_odd", nodd),
      ("n_abstract", _first_present meta ["XMP-photoshop:Headline"])]
      "people_agent_header_2" = some (Value.str (spaceJoined names)) := by
    simp [dictGet, List.find?_cons]
  exact ⟨hget, by rw [dictGet_augment_header2]; exact hget⟩

theorem condense_people_join_spec_witness :
    (2 ≤ (["Alice", "Bob", "Carol"] : List String).length ∧
     _first_present [("XMP-iptcExt:PersonInImage",
        Value.list [Value.str "Alice", Value.str "Bob", Value.str "Carol"])]
        ["XMP-iptcExt:PersonInImage"] =
       Value.list ((["Alice", "Bob", "Carol"] : List String).map Value.str) ∧
     condense_metadata [("XMP-iptcExt:PersonInImage",
        Value.list [Value.str "Alice", Value.str "Bob", Value.str "Carol"])] =
       Except.ok [("title", Value.none), ("begin", Value.none),
         ("people_agent_header_1", Value.none),
         ("people_agent_header_2", Value.str "Alice Bob Carol"),
         ("subject_1_term", Value.none), ("n_odd", Value.none),
         ("n_abstract", Value.none)]) ∧
    (dictGet [("title", Value.none), ("begin", Value.none),
        ("people_agent_header_1", Value.none),
        ("people_agent_header_2", Value.str "Alice Bob Carol"),
        ("subject_1_term", Value.none), ("n_odd", Value.none),
        ("n_abstract", Value.none)] "people_agent_header_2" =
      some (Value.str (spaceJoined ["Alice", "Bob", "Carol"])) ∧
     dictGet (augment_condensed_metadata Option.none
        [("title", Value.none), ("begin", Value.none),
         ("people_agent_header_1", Value.none),
         ("people_agent_header_2", Value.str "Alice Bob Carol"),
         ("subject_1_term", Value.none), ("n_odd", Value.none),
         ("n_abstract", Value.none)] (Value.int 2) 1024 3) "people_agent_header_2" =
      some (Value.str (spaceJoined ["Alice", "Bob", "Carol"]))) ∧
    spaceJoined ["Alice", "Bob", "Carol"] = "Alice Bob Carol" :=
  ⟨⟨by decide, by decide, by decide⟩,
   condense_people_join_spec
     [("XMP-iptcExt:PersonInImage",
       Value.list [Value.str "Alice", Value.str "Bob", Value.str "Carol"])]
     ["Alice", "Bob", "Carol"]
     [("title", Value.none), ("begin", Value.none),
      ("people_agent_header_1", Value.none),
      ("people_agent_header_2", Value.str "Alice Bob Carol"),
      ("subject_1_term", Value.none), ("n_odd", Value.none),
      ("n_abstract", Value.none)] Option.none (Value.int 2) 1024 3
     (by decide) (by decide) (by decide),
   by decide⟩

/-- C7 counterexample: augmenting a condensed record whose people field
still holds the list `["Alice","Bob","Carol"]` does not join it —
`augment_condensed_metadata` copies the field unchanged, so the augmented
`people_agent_header_2` is the list, not `"Alice Bob Carol"`. -/
theorem augment_people_list_not_joined :
    dictGet (augment_condensed_metadata Option.none
      [("people_agent_header_2",
        Value.list [Value.str "Alice", Value.str "Bob", Value.str "Carol"])]
      (Value.int 2) 1024 3) "people_agent_header_2" =
      some (Value.list [Value.str "Alice", Value.str "Bob", Value.str "Carol"]) ∧
    dictGet (augment_condensed_metadata Option.none
      [("people_agent_header_2",
        Value.list [Value.str "Alice", Value.str "Bob", Value.str "Carol"])]
      (Value.int 2) 1024 3) "people_agent_header_2" ≠
      some (Value.str "Alice Bob Carol") :=
  ⟨by decide, by decide⟩

/-- C9: a root that is not a directory makes `filter_images_by_rating`
fail with the fatal input error, while an existing directory containing no
file with an allowed extension yields, without error, a `FilterResult`
whose selected/rated/unrated lists are empty, whose cutoff is absent and
whose stats counters are all zero. -/
theorem filter_images_error_and_empty_spec (folder : String) (listing : List String)
    (stars : String → Option Int) (q : ℚ) (inc : Bool) (exts : Option (List String)) :
    filter_images_by_rating folder Option.none stars q inc exts =
      Except.error ("Not a directory: " ++ folder) ∧
    (filterExtensions listing (some (resolve_extensions exts)) = [] →
      filter_images_by_rating folder (some listing) stars q inc exts =
        Except.ok ⟨[], Option.none, [], [], ⟨0, 0, 0, 0⟩⟩) := by
  constructor
  · rfl
  · intro h
    simp only [filter_images_by_rating, collect_files]
    rw [if_pos h]

theorem filter_images_error_and_empty_spec_witness :
    (filterExtensions ["notes/readme.txt"]
      (some (resolve_extensions Option.none)) = []) ∧
    filter_images_by_rating "ghost" Option.none (fun _ => Option.none) (1 / 2) true
      Option.none = Except.error ("Not a directory: " ++ "ghost") ∧
    filter_images_by_rating "photos" (some ["notes/readme.txt"]) (fun _ => Option.none)
      (1 / 2) true Option.none = Except.ok ⟨[], Option.none, [], [], ⟨0, 0, 0, 0⟩⟩ :=
  ⟨by decide,
   (filter_images_error_and_empty_spec "ghost" [] (fun _ => Option.none) (1 / 2) true
     Option.none).1,
   (filter_images_error_and_empty_spec "photos" ["notes/readme.txt"] (fun _ => Option.none)
     (1 / 2) true Option.none).2 (by decide)⟩

theorem charListLe_total : ∀ x y : List Char, charListLe x y = true ∨ charListLe y x = true := by
  intro x
  induction x with
  | nil => intro y; exact Or.inl rfl
  | cons a as ih =>
      intro y
      cases y with
      | nil => exact Or.inr rfl
      | cons b bs =>
          by_cases hab : a = b
          · subst hab
            rcases ih bs with h | h
            · exact Or.inl (by simpa [charListLe] using h)
            · exact Or.inr (by simpa [charListLe] using h)
          · rcases lt_or_gt_of_ne hab with hlt | hgt
            · exact Or.inl (by simp [charListLe, hab, hlt])
            · exact Or.inr (by simp [charListLe, Ne.symm hab, hgt])

theorem charListLe_trans : ∀ x y z : List Char,
    charListLe x y = true → charListLe y z = true → charListLe x z = true := by
  intro x
  induction x with
  | nil => intro y z _ _; rfl
  | cons a as ih =>
      intro y z hxy hyz
      cases y with
      | nil => simp [charListLe] at hxy
      | cons b bs =>
          cases z with
          | nil => simp [charListLe] at hyz
          | cons c cs =>
              by_cases hab : a = b
              · subst hab
                by_cases hbc : a = c
                · subst hbc
                  simp only [charListLe, if_pos rfl] at hxy hyz ⊢
                  exact ih bs cs hxy hyz
                · have hlt : a < c := by
                    simp only [charListLe, if_neg hbc, decide_eq_true_eq] at hyz
                    exact hyz
                  simp [charListLe, hbc, hlt]
              · have h1 : a < b := by
                  simp only [charListLe, if_neg hab, decide_eq_true_eq] at hxy
                  exact hxy
                by_cases hbc : b = c
                · subst hbc
                  simp [charListLe, hab, h1]
                · have h2 : b < c := by
                    simp only [charListLe, if_neg hbc, decide_eq_true_eq] at hyz
                    exact hyz
                  have hlt : a < c := lt_trans h1 h2
                  simp [charListLe, ne_of_lt hlt, hlt]

theorem pathLe_trans : ∀ a b c : String,
    pathLe a b = true → pathLe b c = true → pathLe a c = true := by
  intro a b c h1 h2
  exact charListLe_trans _ _ _ h1 h2

theorem pathLe_total : ∀ a b : String, pathLe a b = true ∨ pathLe b a = true := by
  intro a b
  exact charListLe_total _ _

theorem recordLe_trans : ∀ r1 r2 r3 : RatingRecord,
    pathLe r1.path r2.path = true → pathLe r2.path r3.path = true →
      pathLe r1.path r3.path = true := by
  intro r1 r2 r3 h1 h2
  exact pathLe_trans _ _ _ h1 h2

theorem recordLe_total : ∀ r1 r2 : RatingRecord,
    pathLe r1.path r2.path = true ∨ pathLe r2.path r1.path = true := by
  intro r1 r2
  exact pathLe_total _ _

theorem percentile_perm (v1 v2 : List Int) (hp : v1.Perm v2) (q : ℚ) :
    percentile_nearest_rank v1 q = percentile_nearest_rank v2 q := by
  by_cases h1 : v1 = []
  · subst h1
    rw [List.Perm.eq_nil hp.symm]
  · have h2 : v2 ≠ [] := by
      intro hz
      subst hz
      exact h1 (List.Perm.eq_nil hp)
    unfold percentile_nearest_rank
    rw [if_neg h1, if_neg h2]
    have hs : pySorted intLe v1 = pySorted intLe v2 :=
      List.eq_of_perm_of_sorted
        (((pySorted_perm intLe v1).trans hp).trans (pySorted_perm intLe v2).symm)
        (pySorted_int_sorted v1) (pySorted_int_sorted v2)
    rw [hs, hp.length_eq]

theorem starsPred_iff (r : RatingRecord) (c : Int) :
    (match r.stars with
      | some s => decide (c ≤ s)
      | Option.none => false) = true ↔ ∃ s : Int, r.stars = some s ∧ c ≤ s := by
  cases hs : r.stars with
  | none => simp
  | some s => simp

theorem percentile_isSome (values : List Int) (q : ℚ) (h : values ≠ []) :
    ∃ c : Int, percentile_nearest_rank values q = some c := by
  have hrk := percentile_rank_le values q h
  have hlen := pySorted_length intLe values
  have hn : 0 < values.length := List.length_pos.mpr h
  have pf : max 1 (⌈min 1 (max 0 q) * ((values.length : ℚ))⌉.toNat) - 1 <
      (pySorted intLe values).length := by
    rw [hlen]
    omega
  exact ⟨_, percentile_eq_get values q h _ rfl pf⟩

/-- C1: in every successful run of `filter_images_by_rating` with at least
one rated file, the cutoff is the nearest-rank percentile of the rated star
values and the selected list consists exactly of the rated paths whose
stars are at or above it, plus every unrated path when include-unrated is
set, deduplicated and sorted ascending by the case-insensitive path
string. -/
theorem filter_images_selected_spec (folder : String) (listing : List String)
    (stars : String → Option Int) (q : ℚ) (inc : Bool) (exts : Option (List String))
    (res : FilterResult)
    (hres : filter_images_by_rating folder (some listing) stars q inc exts = Except.ok res)
    (hrated : res.rated ≠ []) :
    ∃ c : Int,
      res.cutoff_stars = some c ∧
      percentile_nearest_rank (res.rated.filterMap (fun r => r.stars)) q = some c ∧
      (∀ p : String, p ∈ res.selected ↔
        ((∃ r ∈ res.rated, r.path = p ∧ ∃ s : Int, r.stars = some s ∧ c ≤ s) ∨
         (inc = true ∧ ∃ r ∈ res.unrated, r.path = p))) ∧
      List.Pairwise (fun a b : String => pathLe a b = true) res.selected ∧
      res.selected.Nodup := by
  simp only [filter_images_by_rating, collect_files] at hres
  by_cases hf : filterExtensions listing (some (resolve_extensions exts)) = []
  · rw [if_pos hf] at hres
    obtain rfl := Except.ok.inj hres
    exact absurd rfl hrated
  · rw [if_neg hf] at hres
    obtain rfl := Except.ok.inj hres
    set records := ratingRecordsOf stars
      (filterExtensions listing (some (resolve_extensions exts))) with hrecords
    have hratedne : ratedOf records ≠ [] := by
      intro h0
      apply hrated
      show pySorted (fun a b => pathLe a.path b.path) (ratedOf records) = []
      rw [h0]
      rfl
    have hsvne : (ratedOf records).filterMap (fun r => r.stars) ≠ [] := by
      cases hr0 : ratedOf records with
      | nil => exact absurd hr0 hratedne
      | cons r rest =>
          have hrmem : r ∈ ratedOf records := by
            rw [hr0]
            exact List.mem_cons_self r rest
          have hrs : r.stars.isSome = true := by
            simp only [ratedOf] at hrmem
            exact (List.mem_filter.mp hrmem).2
          obtain ⟨s, hs⟩ := Option.isSome_iff_exists.mp hrs
          intro hemp
          simp [List.filterMap_cons, hs] at hemp
    have hcut : cutoffOf records q =
        percentile_nearest_rank ((ratedOf records).filterMap (fun r => r.stars)) q := by
      unfold cutoffOf
      rw [if_neg hratedne]
    obtain ⟨c, hc⟩ :=
      percentile_isSome ((ratedOf records).filterMap (fun r => r.stars)) q hsvne
    have hcs : cutoffOf records q = some c := by rw [hcut, hc]
    refine ⟨c, hcs, ?_, ?_, ?_, ?_⟩
    · show percentile_nearest_rank
        ((pySorted (fun a b => pathLe a.path b.path) (ratedOf records)).filterMap
          (fun r => r.stars)) q = some c
      have hperm : ((pySorted (fun a b => pathLe a.path b.path)
          (ratedOf records)).filterMap (fun r => r.stars)).Perm
          ((ratedOf records).filterMap (fun r => r.stars)) :=
        (pySorted_perm _ (ratedOf records)).filterMap _
      rw [percentile_perm _ _ hperm q, hc]
    · intro p
      show p ∈ selectedOf records q inc ↔ _
      unfold selectedOf
      rw [hcs]
      rw [List.Perm.mem_iff (pySorted_perm pathLe _), mem_dedupFirst, List.mem_append]
      constructor
      · rintro (h1 | h2)
        · left
          simp only [List.mem_map, List.mem_filter] at h1
          obtain ⟨r, ⟨hrmem, hpred⟩, hpath⟩ := h1
          refine ⟨r, ?_, hpath, (starsPred_iff r c).mp hpred⟩
          rw [List.Perm.mem_iff (pySorted_perm _ _)]
          exact hrmem
        · right
          cases inc with
          | false => simp at h2
          | true =>
              rw [if_pos rfl, List.mem_map] at h2
              obtain ⟨r, hrmem, hpath⟩ := h2
              refine ⟨rfl, r, ?_, hpath⟩
              rw [List.Perm.mem_iff (pySorted_perm _ _)]
              exact hrmem
      · rintro (⟨r, hrmem, hpath, hex⟩ | ⟨hinc, r, hrmem, hpath⟩)
        · left
          simp only [List.mem_map, List.mem_filter]
          rw [List.Perm.mem_iff (pySorted_perm _ _)] at hrmem
          exact ⟨r, ⟨hrmem, (starsPred_iff r c).mpr hex⟩, hpath⟩
        · right
          subst hinc
          rw [if_pos rfl, List.mem_map]
          rw [List.Perm.mem_iff (pySorted_perm _ _)] at hrmem
          exact ⟨r, hrmem, hpath⟩
    · show List.Pairwise (fun a b : String => pathLe a b = true) (selectedOf records q inc)
      unfold selectedOf
      exact pySorted_pairwise pathLe_trans pathLe_total _
    · show (selectedOf records q inc).Nodup
      unfold selectedOf
      exact (List.Perm.nodup_iff (pySorted_perm pathLe _)).mpr (nodup_dedupFirst _)

theorem sample_filter_run :
    filter_images_by_rating "photos" (some sampleListing) sampleStars (1 / 2) true
      Option.none = Except.ok sampleFilterResult := by
  have hfilter : filterExtensions sampleListing (some (resolve_extensions Option.none)) =
      sampleListing := by decide
  have hrated : ratedOf (ratingRecordsOf sampleStars sampleListing) =
      [⟨"a1.jpg", some 1⟩, ⟨"b2.jpg", some 1⟩, ⟨"c3.jpg", some 2⟩,
       ⟨"d4.jpg", some 3⟩, ⟨"e5.jpg", some 5⟩] := by decide
  have hunrated : unratedOf (ratingRecordsOf sampleStars sampleListing) = [] := by decide
  have hsv : (ratedOf (ratingRecordsOf sampleStars sampleListing)).filterMap
      (fun r => r.stars) = [1, 1, 2, 3, 5] := by decide
  have hkk : max 1 (⌈min 1 (max 0 (1 / 2 : ℚ)) *
      ((([1, 1, 2, 3, 5] : List Int).length : ℚ))⌉.toNat) - 1 = 2 := by
    have h1 : min 1 (max 0 (1 / 2 : ℚ)) * ((([1, 1, 2, 3, 5] : List Int).length : ℚ)) =
        5 / 2 := by
      norm_num [min_def, max_def]
    rw [h1, show (⌈(5 / 2 : ℚ)⌉ : ℤ) = 3 from by rw [Int.ceil_eq_iff] <;> norm_num]
    decide
  have hperc : percentile_nearest_rank [1, 1, 2, 3, 5] (1 / 2) = some 2 := by
    rw [percentile_eq_get [1, 1, 2, 3, 5] (1 / 2) (by decide) 2 hkk (by decide)]
    decide
  have hcut : cutoffOf (ratingRecordsOf sampleStars sampleListing) (1 / 2) = some 2 := by
    unfold cutoffOf
    rw [if_neg (by rw [hrated]; decide), hsv, hperc]
  have hsel : selectedOf (ratingRecordsOf sampleStars sampleListing) (1 / 2) true =
      ["c3.jpg", "d4.jpg", "e5.jpg"] := by
    unfold selectedOf
    rw [hcut, hrated, hunrated]
    decide
  simp only [filter_images_by_rating, collect_files]
  rw [hfilter, if_neg (by decide)]
  rw [hsel, hcut, hrated, hunrated]
  decide

theorem filter_images_selected_spec_witness :
    (filter_images_by_rating "photos" (some sampleListing) sampleStars (1 / 2) true
        Option.none = Except.ok sampleFilterResult ∧
     sampleFilterResult.rated ≠ []) ∧
    (∃ c : Int,
      sampleFilterResult.cutoff_stars = some c ∧
      percentile_nearest_rank (sampleFilterResult.rated.filterMap (fun r => r.stars))
        (1 / 2) = some c ∧
      (∀ p : String, p ∈ sampleFilterResult.selected ↔
        ((∃ r ∈ sampleFilterResult.rated, r.path = p ∧
            ∃ s : Int, r.stars = some s ∧ c ≤ s) ∨
         (true = true ∧ ∃ r ∈ sampleFilterResult.unrated, r.path = p))) ∧
      List.Pairwise (fun a b : String => pathLe a b = true) sampleFilterResult.selected ∧
      sampleFilterResult.selected.Nodup) ∧
    sampleFilterResult.cutoff_stars = some 2 ∧
    sampleFilterResult.selected = ["c3.jpg", "d4.jpg", "e5.jpg"] :=
  ⟨⟨sample_filter_run, by decide⟩,
   filter_images_selected_spec "photos" sampleListing sampleStars (1 / 2) true Option.none
     sampleFilterResult sample_filter_run (by decide),
   by decide, by decide⟩
